import Mathlib

/-!
Verification of the PixelTerm two-tier render cache and preload subsystem.

The development shallowly embeds the Python code of `file_browser.py`,
`image_viewer.py`, `pixelterm.py` and `constants.py`.  Filesystem paths are
modelled as strings; the Python dictionary `render_cache` and the temporary
cache directory are modelled as association lists keyed by the absolute path
string (the md5 file name of the real disk cache is a function of that
string, so the path itself is a faithful key).  Machine-level concerns that
the claims do not touch (the md5 digest itself, time.sleep, printing) are
dropped.  Reads of the mutable field `current_index` performed by the
background worker while it runs are modelled by an explicit observation
function `obs`, one observed value per loop index, since a navigation event
on the foreground thread may move the cursor mid-pass.
-/

namespace PixelTerm

/-- Content of one file in the temporary cache directory: either readable
text, or a file whose read fails (permission or I/O error). -/
inductive DiskFile where
  | ok (s : String) : DiskFile
  | bad : DiskFile
deriving DecidableEq, Repr

/-- Observable event of one preload-worker loop iteration: either the index
was skipped because its cache file already exists, or the renderer was
invoked for it.  `ok` records whether the call returned non-empty text and
`memWrite` whether the result was also written to the memory cache. -/
inductive PEvent where
  | skip (i : Int) (p : String) : PEvent
  | call (i : Int) (p : String) (scale : ℚ) (ok : Bool) (memWrite : Bool) : PEvent
deriving DecidableEq, Repr

/-- Index carried by a worker event. -/
def pevIdx : PEvent → Int
  | .skip i _ => i
  | .call i _ _ _ _ => i

/-- Path carried by a worker event. -/
def pevPath : PEvent → String
  | .skip _ p => p
  | .call _ p _ _ _ => p

/-- Lookup in an association list keyed by strings, first binding wins;
models Python dict lookup and the existence test of a cache file. -/
def alookup {β : Type} : List (String × β) → String → Option β
  | [], _ => none
  | (a, b) :: t, k => if a = k then some b else alookup t k

/-- Python dict assignment `m[k] = v`: update the binding in place when the
key is present, append a new binding otherwise. -/
def ainsert {β : Type} (m : List (String × β)) (k : String) (v : β) :
    List (String × β) :=
  if m.any (fun kv => decide (kv.1 = k)) then
    m.map (fun kv => if kv.1 = k then (k, v) else kv)
  else m ++ [(k, v)]

/-- Keys of an association list are pairwise distinct (the Python dict
invariant). -/
def keysNodup {β : Type} (m : List (String × β)) : Prop :=
  (m.map Prod.fst).Nodup

/-- Half-open integer interval `[start, stop)` as an ascending list; models
Python `range(start, stop)`. -/
def intRange (start stop : Int) : List Int :=
  (List.range (stop - start).toNat).map (fun (k : Nat) => start + (k : Int))

/-- Python `files[i]` for a non-negative index. -/
def getAt : List String → Int → String
  | [], _ => ""
  | a :: t, i => if i ≤ 0 then a else getAt t (i - 1)

/-- Index of the first occurrence of `p`, models Python `list.index` with
the `ValueError` case returned as `none`. -/
def idxOf? : List String → String → Option Nat
  | [], _ => none
  | a :: t, p => if a = p then some 0 else (idxOf? t p).map (· + 1)

/-- constants.py: SUPPORTED_FORMATS. -/
def SUPPORTED_FORMATS : List String :=
  [".jpg", ".jpeg", ".png", ".gif", ".bmp", ".webp", ".tiff"]

/-- constants.py: DEFAULT_SCALE = 1.0. -/
def DEFAULT_SCALE : ℚ := 1

/-- constants.py: SCALE_STEP = 0.1. -/
def SCALE_STEP : ℚ := 1 / 10

/-- constants.py: DEFAULT_PRELOAD_SIZE = 10. -/
def DEFAULT_PRELOAD_SIZE : Nat := 10

/-- FileBrowser.__init__: self.file_cache_range = 10. -/
def file_cache_range : Int := 10

/-- FileBrowser.__init__: ThreadPoolExecutor(max_workers=2). -/
def render_executor_max_workers : Nat := 2

/-- Modelled from the spec: chafa_wrapper.render_image is not under src.
The Renderer contract of the spec takes a path and a scale; the preload
call site in file_browser.py passes only the path, so the fixed default of
the declared scale parameter applies, matching constants.DEFAULT_SCALE. -/
def chafa_default_scale : ℚ := DEFAULT_SCALE

/-- Modelled from the spec: config.DisplayOptions (config.py is not under
src).  The presentation layer owns the currently selected display scale and
passes `get_scale()` to `display_image` on the foreground path; the preload
worker has no access to it. -/
structure DisplayOptions where
  scale : ℚ
deriving DecidableEq, Repr

/-- DisplayOptions.get_scale. -/
def get_scale (d : DisplayOptions) : ℚ := d.scale

/-- Path.suffix.lower() of pathlib: the final extension of the last path
component, empty for names with no dot, a leading-dot-only name, or a
trailing dot. -/
def path_suffix (p : String) : String :=
  let base := (p.splitOn "/").getLastD ""
  let parts := base.splitOn "."
  if parts.length ≤ 1 then ""
  else
    let last := parts.getLastD ""
    if last = "" then ""
    else if parts.length = 2 ∧ parts.headD "" = "" then ""
    else "." ++ last

/-- FileBrowser.is_image_file. -/
def is_image_file (p : String) : Bool :=
  SUPPORTED_FORMATS.contains (path_suffix p).toLower

/-- State of a FileBrowser instance.  `render_cache` is the in-memory
cache, `temp_cache` the temporary directory of cache files keyed by the
absolute path they were derived from, and `pending` counts the worker
tasks submitted to the thread-pool executor and not yet finished
(ThreadPoolExecutor.submit enqueues unconditionally). -/
structure FBState where
  image_files : List String
  current_index : Int
  render_cache : List (String × String)
  temp_cache : List (String × DiskFile)
  preload_enabled : Bool
  pending : Nat
deriving DecidableEq, Repr

/-- One directory entry as seen by Path.iterdir. -/
structure DirItem where
  path : String
  isFile : Bool
deriving DecidableEq, Repr

/-- FileBrowser.get_current_image. -/
def get_current_image (st : FBState) : Option String :=
  if 0 ≤ st.current_index ∧ st.current_index < (st.image_files.length : Int) then
    some (getAt st.image_files st.current_index)
  else none

/-- FileBrowser._load_from_temp_cache: `none` both when the cache file is
missing and when reading it fails. -/
def load_from_temp (disk : List (String × DiskFile)) (p : String) : Option String :=
  match alookup disk p with
  | some (DiskFile.ok s) => some s
  | some DiskFile.bad => none
  | none => none

/-- FileBrowser._is_in_memory_range. -/
def is_in_memory_range (files : List String) (cursor : Int) (p : String) : Bool :=
  if files.isEmpty then false
  else
    match idxOf? files p with
    | some j => ((j : Int) - cursor).natAbs ≤ 1
    | none => false

/-- FileBrowser._cleanup_memory_cache. -/
def cleanup_memory_cache (files : List String) (cursor : Int)
    (cache : List (String × String)) : List (String × String) :=
  if files.isEmpty then cache
  else
    let to_keep := (intRange (max 0 (cursor - 1))
      (min (files.length : Int) (cursor + 2))).map (getAt files)
    cache.filter (fun kv => decide (kv.1 ∈ to_keep))

/-- FileBrowser.preload_renders: submits one worker task to the executor
unless the catalog is empty or preloading is disabled. -/
def preload_renders (st : FBState) : FBState :=
  if st.image_files.isEmpty || !st.preload_enabled then st
  else { st with pending := st.pending + 1 }

/-- One iteration of the FileBrowser._render_worker loop at index `i`.
`render` is the external renderer (`none` models both an exception and a
None return), `saveOk` tells whether the best-effort cache-file write
succeeds, and `obs i` is the value of `self.current_index` observed while
iteration `i` executes (it is read live, both for the skip-current test
and for the memory-range test).  Returns the new memory cache, the new
temporary cache, and the events of this iteration. -/
def processOne (files : List String) (render : String → ℚ → Option String)
    (saveOk : String → Bool) (obs : Int → Int) (i : Int)
    (mem : List (String × String)) (disk : List (String × DiskFile)) :
    List (String × String) × List (String × DiskFile) × List PEvent :=
  if i = obs i then (mem, disk, [])
  else
    let p := getAt files i
    if (alookup disk p).isSome then (mem, disk, [PEvent.skip i p])
    else
      match render p chafa_default_scale with
      | none => (mem, disk, [PEvent.call i p chafa_default_scale false false])
      | some s =>
        if s = "" then (mem, disk, [PEvent.call i p chafa_default_scale false false])
        else
          let inR := is_in_memory_range files (obs i) p
          ((if inR then ainsert mem p s else mem),
           (if saveOk p then ainsert disk p (DiskFile.ok s) else disk),
           [PEvent.call i p chafa_default_scale true inR])

/-- Loop of FileBrowser._render_worker over the precomputed index list. -/
def workerLoop (files : List String) (render : String → ℚ → Option String)
    (saveOk : String → Bool) (obs : Int → Int) :
    List Int → List (String × String) → List (String × DiskFile) →
    List (String × String) × List (String × DiskFile) × List PEvent
  | [], mem, disk => (mem, disk, [])
  | i :: rest, mem, disk =>
    let a := processOne files render saveOk obs i mem disk
    let r := workerLoop files render saveOk obs rest a.1 a.2.1
    (r.1, r.2.1, a.2.2 ++ r.2.2)

/-- Window of indices visited by one preload pass, from the cursor value
read at pass start. -/
def preloadWindow (st : FBState) : List Int :=
  intRange (max 0 (st.current_index - file_cache_range))
    (min (st.image_files.length : Int) (st.current_index + file_cache_range + 1))

/-- FileBrowser._render_worker.  `cEnd` is the cursor value observed by
the final `_cleanup_memory_cache` call (step 4 of the pass); the event
list of the loop is returned alongside the new state. -/
def render_worker (st : FBState) (render : String → ℚ → Option String)
    (saveOk : String → Bool) (obs : Int → Int) (cEnd : Int) :
    FBState × List PEvent :=
  let r := workerLoop st.image_files render saveOk obs (preloadWindow st)
    st.render_cache st.temp_cache
  let st1 := { st with render_cache := cleanup_memory_cache st.image_files cEnd r.1 }
  ({ st1 with temp_cache := r.2.1 }, r.2.2)

/-- FileBrowser._update_memory_cache_on_switch. -/
def update_memory_cache_on_switch (st : FBState) : FBState :=
  if st.image_files.isEmpty then st
  else
    let st1 :=
      match get_current_image st with
      | some p =>
        if (alookup st.render_cache p).isNone then
          match load_from_temp st.temp_cache p with
          | some d =>
            if d = "" then st
            else { st with render_cache := ainsert st.render_cache p d }
          | none => st
        else st
      | none => st
    { st1 with render_cache :=
        cleanup_memory_cache st1.image_files st1.current_index st1.render_cache }

/-- FileBrowser.next_image. -/
def next_image (st : FBState) : Bool × FBState :=
  if st.image_files.isEmpty then (false, st)
  else
    let st1 := { st with current_index :=
      (st.current_index + 1) % (st.image_files.length : Int) }
    (true, preload_renders (update_memory_cache_on_switch st1))

/-- FileBrowser.previous_image. -/
def previous_image (st : FBState) : Bool × FBState :=
  if st.image_files.isEmpty then (false, st)
  else
    let st1 := { st with current_index :=
      (st.current_index - 1) % (st.image_files.length : Int) }
    (true, preload_renders (update_memory_cache_on_switch st1))

/-- FileBrowser.get_rendered_image: memory cache first, then the temporary
file cache with promotion, empty text and read failures as misses. -/
def get_rendered_image (st : FBState) (p : String) : Option String × FBState :=
  match alookup st.render_cache p with
  | some t => (some t, st)
  | none =>
    match load_from_temp st.temp_cache p with
    | some d =>
      if d = "" then (none, st)
      else
        (some d,
          if is_in_memory_range st.image_files st.current_index p then
            { st with render_cache := ainsert st.render_cache p d }
          else st)
    | none => (none, st)

/-- Truthiness of an optional rendered text in Python: present and
non-empty. -/
def truthyOpt : Option String → Bool
  | some s => !decide (s = "")
  | none => false

/-- ImageViewer.display_image: pre-rendered data if available, otherwise a
synchronous renderer call at the display scale; nothing is cached on the
fallback path, and failures are reported as `false`, never raised. -/
def display_image (st : FBState) (p : String) (scale : ℚ)
    (render : String → ℚ → Option String) : Bool × FBState :=
  let r := get_rendered_image st p
  if truthyOpt r.1 then (true, r.2)
  else (truthyOpt (render p scale), r.2)

/-- PixelTerm.refresh_display restricted to its cache effects: displaying
the current image may promote it from the temporary cache into memory. -/
def refresh_display_model (st : FBState) (scale : ℚ)
    (render : String → ℚ → Option String) : FBState :=
  match get_current_image st with
  | some p => (display_image st p scale render).2
  | none => st

/-- FileBrowser.refresh_file_list.  The listing argument is the result of
iterating the directory: `none` models a listing failure, which the code
absorbs after having already cleared the catalog and both caches; the
temporary-directory recreation of `_clear_temp_cache` is modelled as
succeeding. -/
def refresh_file_list (st : FBState) (listing : Option (List DirItem)) : FBState :=
  let stA := { st with image_files := ([] : List String) }
  let stB := { stA with render_cache := ([] : List (String × String)) }
  let st0 := { stB with temp_cache := ([] : List (String × DiskFile)) }
  match listing with
  | none => st0
  | some items =>
    let fs := ((items.filter (fun it => it.isFile && is_image_file it.path)).map
      (fun it => it.path)).mergeSort (fun a b => decide (a ≤ b))
    preload_renders { st0 with image_files := fs, current_index := 0 }

/-- PixelTerm.delete_current_image after the interactive prompt:
`confirmed` is the answer to the confirmation prompt and `removeOk`
whether `os.remove` succeeds.  On success the path is removed from the
catalog (first occurrence), the cursor clamped, and the display refreshed,
which may promote the new current entry. -/
def delete_current_image (st : FBState) (confirmed removeOk : Bool)
    (scale : ℚ) (render : String → ℚ → Option String) : FBState :=
  match get_current_image st with
  | none => st
  | some p =>
    if !confirmed then st
    else if !removeOk then st
    else
      let fs := st.image_files.erase p
      let st1 := { st with image_files := fs }
      if fs.isEmpty then st1
      else
        let st2 :=
          if (fs.length : Int) ≤ st1.current_index then
            { st1 with current_index := 0 }
          else st1
        refresh_display_model st2 scale render

/-- Iterated forward navigation. -/
def advanceFwd : Nat → FBState → FBState
  | 0, st => st
  | m + 1, st => advanceFwd m (next_image st).2

/-- Iterated backward navigation. -/
def advanceBwd : Nat → FBState → FBState
  | 0, st => st
  | m + 1, st => advanceBwd m (previous_image st).2

/-! ### Association-list lemmas -/

theorem alookup_eq_none_of_not_mem_keys {β : Type} (m : List (String × β)) (q : String)
    (h : q ∉ m.map Prod.fst) : alookup m q = none := by
  induction m with
  | nil => rfl
  | cons hd tl ih =>
    obtain ⟨a, b⟩ := hd
    simp only [List.map_cons, List.mem_cons, not_or] at h
    have haq : ¬ a = q := fun he => h.1 he.symm
    simp only [alookup, if_neg haq]
    exact ih h.2

theorem mem_keys_of_alookup_eq_some {β : Type} (m : List (String × β)) (q : String)
    (v : β) (h : alookup m q = some v) : q ∈ m.map Prod.fst := by
  by_contra hq
  rw [alookup_eq_none_of_not_mem_keys m q hq] at h
  exact Option.noConfusion h

theorem alookup_map_update_self {β : Type} (m : List (String × β)) (k : String) (v : β)
    (hany : m.any (fun kv => decide (kv.1 = k)) = true) :
    alookup (m.map (fun kv => if kv.1 = k then (k, v) else kv)) k = some v := by
  induction m with
  | nil => simp at hany
  | cons hd tl ih =>
    obtain ⟨a, b⟩ := hd
    simp only [List.map_cons]
    by_cases hk : a = k
    · rw [if_pos hk]
      simp [alookup]
    · rw [if_neg hk]
      simp only [alookup, if_neg hk]
      simp only [List.any_cons, Bool.or_eq_true, decide_eq_true_eq] at hany
      rcases hany with h | h
      · exact absurd h hk
      · exact ih (by simpa using h)

theorem alookup_append_single {β : Type} (m : List (String × β)) (k q : String) (v : β) :
    alookup (m ++ [(k, v)]) q =
      match alookup m q with
      | some w => some w
      | none => if k = q then some v else none := by
  induction m with
  | nil => simp [alookup]
  | cons hd tl ih =>
    obtain ⟨a, b⟩ := hd
    by_cases haq : a = q
    · simp [alookup, haq]
    · simp only [List.cons_append, alookup, if_neg haq]
      exact ih

theorem not_mem_keys_of_any_eq_false {β : Type} (m : List (String × β)) (k : String)
    (hany : ¬ m.any (fun kv => decide (kv.1 = k)) = true) : k ∉ m.map Prod.fst := by
  intro hmem
  rcases List.mem_map.mp hmem with ⟨kv, hkv, hfst⟩
  exact hany (List.any_eq_true.mpr ⟨kv, hkv, by simp [hfst]⟩)

theorem alookup_ainsert_self {β : Type} (m : List (String × β)) (k : String) (v : β) :
    alookup (ainsert m k v) k = some v := by
  unfold ainsert
  split
  case isTrue hany => exact alookup_map_update_self m k v hany
  case isFalse hany =>
    rw [alookup_append_single]
    rw [alookup_eq_none_of_not_mem_keys m k (not_mem_keys_of_any_eq_false m k hany)]
    simp

theorem alookup_ainsert_ne {β : Type} (m : List (String × β)) (k q : String) (v : β)
    (h : q ≠ k) : alookup (ainsert m k v) q = alookup m q := by
  unfold ainsert
  split
  case isTrue hany =>
    clear hany
    induction m with
    | nil => simp
    | cons hd tl ih =>
      obtain ⟨a, b⟩ := hd
      simp only [List.map_cons]
      by_cases hk : a = k
      · rw [if_pos hk]
        have hkq : ¬ k = q := fun he => h he.symm
        have haq : ¬ a = q := by rw [hk]; exact hkq
        simp only [alookup, if_neg hkq, if_neg haq]
        exact ih
      · rw [if_neg hk]
        by_cases haq : a = q
        · simp [alookup, haq]
        · simp only [alookup, if_neg haq]
          exact ih
  case isFalse hany =>
    clear hany
    rw [alookup_append_single]
    cases hm : alookup m q with
    | some w => rfl
    | none =>
      rw [if_neg (show ¬ k = q from fun he => h he.symm)]

theorem keys_ainsert {β : Type} (m : List (String × β)) (k : String) (v : β) :
    (ainsert m k v).map Prod.fst = m.map Prod.fst ∨
    (ainsert m k v).map Prod.fst = m.map Prod.fst ++ [k] := by
  unfold ainsert
  split
  case isTrue hany =>
    left
    clear hany
    induction m with
    | nil => simp
    | cons hd tl ih =>
      obtain ⟨a, b⟩ := hd
      simp only [List.map_cons]
      by_cases hk : a = k
      · rw [if_pos hk]
        simp only [List.map_cons, ih]
        simp [hk]
      · rw [if_neg hk]
        simp [ih]
  case isFalse hany => right; simp

theorem keys_map_update {β : Type} (m : List (String × β)) (k : String) (v : β) :
    (m.map (fun kv => if kv.1 = k then (k, v) else kv)).map Prod.fst =
      m.map Prod.fst := by
  induction m with
  | nil => simp
  | cons hd tl ih =>
    obtain ⟨a, b⟩ := hd
    simp only [List.map_cons]
    by_cases hk : a = k
    · rw [if_pos hk]
      simp only [ih]
      simp [hk]
    · rw [if_neg hk]
      simp [ih]

theorem keysNodup_ainsert {β : Type} (m : List (String × β)) (k : String) (v : β)
    (h : keysNodup m) : keysNodup (ainsert m k v) := by
  unfold keysNodup at *
  unfold ainsert
  split
  case isTrue hany =>
    rw [keys_map_update]
    exact h
  case isFalse hany =>
    have hmem := not_mem_keys_of_any_eq_false m k hany
    simp only [List.map_append, List.map_cons, List.map_nil]
    exact List.Nodup.append h (by simp) (by
      intro x hx hx2
      simp at hx2
      subst hx2
      exact hmem hx)

theorem alookup_filter_key {β : Type} (m : List (String × β)) (pred : String → Bool)
    (q : String) :
    alookup (m.filter (fun kv => pred kv.1)) q =
      if pred q then alookup m q else none := by
  induction m with
  | nil => simp [alookup]
  | cons hd tl ih =>
    obtain ⟨a, b⟩ := hd
    simp only [List.filter_cons]
    by_cases hpa : pred a = true
    · by_cases haq : a = q
      · subst haq
        rw [if_pos (by simpa using hpa), if_pos hpa]
        simp [alookup]
      · rw [if_pos (by simpa using hpa)]
        simp only [alookup, if_neg haq]
        exact ih
    · by_cases haq : a = q
      · subst haq
        rw [if_neg (by simpa using hpa), ih]
        rw [if_neg hpa, if_neg hpa]
      · rw [if_neg (by simpa using hpa), ih]
        by_cases hpq : pred q = true
        · rw [if_pos hpq, if_pos hpq]
          simp [alookup, haq]
        · rw [if_neg hpq, if_neg hpq]

theorem keysNodup_filter {β : Type} (m : List (String × β)) (pred : String × β → Bool)
    (h : keysNodup m) : keysNodup (m.filter pred) := by
  unfold keysNodup at *
  have hsub : List.Sublist ((m.filter pred).map Prod.fst) (m.map Prod.fst) :=
    List.Sublist.map Prod.fst (List.filter_sublist m)
  exact List.Nodup.sublist hsub h

/-! ### Integer-range and indexing lemmas -/

theorem mem_intRange {x a b : Int} : x ∈ intRange a b ↔ a ≤ x ∧ x < b := by
  unfold intRange
  simp only [List.mem_map, List.mem_range]
  constructor
  · rintro ⟨k, hk, rfl⟩
    omega
  · rintro ⟨h1, h2⟩
    refine ⟨(x - a).toNat, by omega, by omega⟩

theorem intRange_pairwise (a b : Int) : (intRange a b).Pairwise (· < ·) := by
  unfold intRange
  refine List.Pairwise.map _ (fun k l h => ?_) (List.pairwise_lt_range _)
  omega

theorem length_intRange (a b : Int) : (intRange a b).length = (b - a).toNat := by
  simp [intRange]

theorem getAt_cons_pos (hd : String) (tl : List String) (i : Int) (h : 0 < i) :
    getAt (hd :: tl) i = getAt tl (i - 1) := by
  show (if i ≤ 0 then hd else getAt tl (i - 1)) = getAt tl (i - 1)
  rw [if_neg (by omega : ¬ i ≤ 0)]

theorem getAt_mem (l : List String) (i : Int) (h0 : 0 ≤ i)
    (h1 : i < (l.length : Int)) : getAt l i ∈ l := by
  induction l generalizing i with
  | nil => simp at h1; omega
  | cons hd tl ih =>
    by_cases hz : i ≤ 0
    · simp [getAt, hz]
    · rw [getAt_cons_pos hd tl i (by omega)]
      right
      exact ih (i - 1) (by omega) (by simp at h1; omega)

theorem idxOf?_getAt (l : List String) (hnd : l.Nodup) (i : Int) (h0 : 0 ≤ i)
    (h1 : i < (l.length : Int)) : idxOf? l (getAt l i) = some i.toNat := by
  induction l generalizing i with
  | nil => simp at h1; omega
  | cons hd tl ih =>
    rcases List.nodup_cons.mp hnd with ⟨hmem, hndtl⟩
    by_cases hz : i ≤ 0
    · have : i = 0 := by omega
      subst this
      simp [getAt, idxOf?]
    · rw [getAt_cons_pos hd tl i (by omega)]
      have hmemtl : getAt tl (i - 1) ∈ tl :=
        getAt_mem tl (i - 1) (by omega) (by simp at h1; omega)
      have hne : ¬ hd = getAt tl (i - 1) := fun he => hmem (he ▸ hmemtl)
      simp only [idxOf?, if_neg hne]
      rw [ih hndtl (i - 1) (by omega) (by simp at h1; omega)]
      simp
      omega

theorem getAt_inj (l : List String) (hnd : l.Nodup) (i j : Int) (hi0 : 0 ≤ i)
    (hi1 : i < (l.length : Int)) (hj0 : 0 ≤ j) (hj1 : j < (l.length : Int))
    (heq : getAt l i = getAt l j) : i = j := by
  have h1 := idxOf?_getAt l hnd i hi0 hi1
  have h2 := idxOf?_getAt l hnd j hj0 hj1
  rw [heq] at h1
  rw [h1] at h2
  have : i.toNat = j.toNat := by injection h2
  omega

theorem is_in_memory_range_getAt (files : List String) (hnd : files.Nodup)
    (c i : Int) (h0 : 0 ≤ i) (h1 : i < (files.length : Int)) :
    is_in_memory_range files c (getAt files i) = decide ((i - c).natAbs ≤ 1) := by
  unfold is_in_memory_range
  have hne : ¬ files.isEmpty := by
    cases files
    · simp at h1; omega
    · simp
  rw [if_neg hne, idxOf?_getAt files hnd i h0 h1]
  have hti : ((i.toNat : Int)) = i := by omega
  simp [hti]

/-! ### Worker-loop characterization -/

/-- Temporary-cache binding that one worker iteration at index `i` leaves
for the path of `i`, as a function of the caches at that iteration. -/
def workerDiskOutcome (files : List String) (render : String → ℚ → Option String)
    (saveOk : String → Bool) (disk : List (String × DiskFile)) (i : Int) :
    Option DiskFile :=
  if (alookup disk (getAt files i)).isSome then alookup disk (getAt files i)
  else
    match render (getAt files i) chafa_default_scale with
    | none => none
    | some s =>
      if s = "" then none
      else if saveOk (getAt files i) then some (DiskFile.ok s) else none

/-- Memory-cache binding that one worker iteration at index `i` leaves for
the path of `i`, before the final cleanup. -/
def workerMemOutcome (files : List String) (render : String → ℚ → Option String)
    (obs : Int → Int) (mem : List (String × String))
    (disk : List (String × DiskFile)) (i : Int) : Option String :=
  if (alookup disk (getAt files i)).isSome then alookup mem (getAt files i)
  else
    match render (getAt files i) chafa_default_scale with
    | none => alookup mem (getAt files i)
    | some s =>
      if s = "" then alookup mem (getAt files i)
      else if is_in_memory_range files (obs i) (getAt files i) then some s
      else alookup mem (getAt files i)

/-- Event that a processed worker iteration at index `i` reports. -/
def workerEvent (files : List String) (render : String → ℚ → Option String)
    (obs : Int → Int) (disk : List (String × DiskFile)) (i : Int) : PEvent :=
  if (alookup disk (getAt files i)).isSome then PEvent.skip i (getAt files i)
  else
    PEvent.call i (getAt files i) chafa_default_scale
      (truthyOpt (render (getAt files i) chafa_default_scale))
      ((truthyOpt (render (getAt files i) chafa_default_scale)) &&
        is_in_memory_range files (obs i) (getAt files i))

theorem processOne_noop (files : List String) (render : String → ℚ → Option String)
    (saveOk : String → Bool) (obs : Int → Int) (i : Int) (mem disk)
    (hio : i = obs i) :
    processOne files render saveOk obs i mem disk = (mem, disk, []) := by
  unfold processOne
  rw [if_pos hio]

theorem processOne_processed (files : List String)
    (render : String → ℚ → Option String) (saveOk : String → Bool)
    (obs : Int → Int) (i : Int) (mem disk) (hio : ¬ i = obs i) :
    processOne files render saveOk obs i mem disk =
      ((if truthyOpt (render (getAt files i) chafa_default_scale) &&
          is_in_memory_range files (obs i) (getAt files i) &&
          !(alookup disk (getAt files i)).isSome then
          ainsert mem (getAt files i)
            ((render (getAt files i) chafa_default_scale).getD "")
        else mem),
       (if truthyOpt (render (getAt files i) chafa_default_scale) &&
          saveOk (getAt files i) &&
          !(alookup disk (getAt files i)).isSome then
          ainsert disk (getAt files i)
            (DiskFile.ok ((render (getAt files i) chafa_default_scale).getD ""))
        else disk),
       [workerEvent files render obs disk i]) := by
  unfold processOne workerEvent
  rw [if_neg hio]
  by_cases hdisk : (alookup disk (getAt files i)).isSome
  · simp [hdisk]
  · cases hr : render (getAt files i) chafa_default_scale with
    | none => simp [hdisk, hr, truthyOpt]
    | some s =>
      by_cases hs : s = ""
      · subst hs
        simp [hdisk, hr, truthyOpt]
      · simp [hdisk, hr, truthyOpt, hs]

theorem pevIdx_workerEvent (files : List String)
    (render : String → ℚ → Option String) (obs : Int → Int) (disk) (i : Int) :
    pevIdx (workerEvent files render obs disk i) = i := by
  unfold workerEvent
  split
  · rfl
  · rfl

theorem pevPath_workerEvent (files : List String)
    (render : String → ℚ → Option String) (obs : Int → Int) (disk) (i : Int) :
    pevPath (workerEvent files render obs disk i) = getAt files i := by
  unfold workerEvent
  split
  · rfl
  · rfl

theorem processOne_frame (files : List String)
    (render : String → ℚ → Option String) (saveOk : String → Bool)
    (obs : Int → Int) (i : Int) (mem disk) (q : String)
    (hq : getAt files i ≠ q) :
    alookup (processOne files render saveOk obs i mem disk).1 q = alookup mem q ∧
    alookup (processOne files render saveOk obs i mem disk).2.1 q =
      alookup disk q := by
  by_cases hio : i = obs i
  · rw [processOne_noop files render saveOk obs i mem disk hio]
    exact ⟨rfl, rfl⟩
  · rw [processOne_processed files render saveOk obs i mem disk hio]
    refine ⟨?_, ?_⟩
    · dsimp only
      split
      · exact alookup_ainsert_ne _ _ _ _ (fun he => hq he.symm)
      · rfl
    · dsimp only
      split
      · exact alookup_ainsert_ne _ _ _ _ (fun he => hq he.symm)
      · rfl

theorem processOne_at (files : List String)
    (render : String → ℚ → Option String) (saveOk : String → Bool)
    (obs : Int → Int) (i : Int) (mem disk) (hio : ¬ i = obs i) :
    alookup (processOne files render saveOk obs i mem disk).2.1 (getAt files i) =
      workerDiskOutcome files render saveOk disk i ∧
    alookup (processOne files render saveOk obs i mem disk).1 (getAt files i) =
      workerMemOutcome files render obs mem disk i := by
  unfold processOne workerDiskOutcome workerMemOutcome
  rw [if_neg hio]
  by_cases hdisk : (alookup disk (getAt files i)).isSome
  · simp [hdisk]
  · have hdn : alookup disk (getAt files i) = none :=
      Option.not_isSome_iff_eq_none.mp hdisk
    cases hr : render (getAt files i) chafa_default_scale with
    | none => simp [hdisk, hdn, hr]
    | some s =>
      by_cases hs : s = ""
      · subst hs
        simp [hdisk, hdn, hr]
      · simp only [hdisk, Bool.false_eq_true, if_false, hr, if_neg hs]
        constructor
        · by_cases hsv : saveOk (getAt files i)
          · simp [hsv, alookup_ainsert_self]
          · simp [hsv, hdn]
        · by_cases hinr : is_in_memory_range files (obs i) (getAt files i)
          · simp [hinr, alookup_ainsert_self]
          · simp [hinr]

theorem processOne_log (files : List String)
    (render : String → ℚ → Option String) (saveOk : String → Bool)
    (obs : Int → Int) (i : Int) (mem disk) :
    (processOne files render saveOk obs i mem disk).2.2 =
      if i = obs i then [] else [workerEvent files render obs disk i] := by
  by_cases hio : i = obs i
  · rw [processOne_noop files render saveOk obs i mem disk hio, if_pos hio]
  · rw [processOne_processed files render saveOk obs i mem disk hio, if_neg hio]

theorem workerDiskOutcome_congr (files : List String)
    (render : String → ℚ → Option String) (saveOk : String → Bool)
    (disk1 disk2) (i : Int)
    (h : alookup disk1 (getAt files i) = alookup disk2 (getAt files i)) :
    workerDiskOutcome files render saveOk disk1 i =
      workerDiskOutcome files render saveOk disk2 i := by
  unfold workerDiskOutcome
  rw [h]

theorem workerMemOutcome_congr (files : List String)
    (render : String → ℚ → Option String) (obs : Int → Int)
    (mem1 mem2 disk1 disk2) (i : Int)
    (hd : alookup disk1 (getAt files i) = alookup disk2 (getAt files i))
    (hm : alookup mem1 (getAt files i) = alookup mem2 (getAt files i)) :
    workerMemOutcome files render obs mem1 disk1 i =
      workerMemOutcome files render obs mem2 disk2 i := by
  unfold workerMemOutcome
  rw [hd, hm]

theorem workerEvent_congr (files : List String)
    (render : String → ℚ → Option String) (obs : Int → Int)
    (disk1 disk2) (i : Int)
    (h : alookup disk1 (getAt files i) = alookup disk2 (getAt files i)) :
    workerEvent files render obs disk1 i = workerEvent files render obs disk2 i := by
  unfold workerEvent
  rw [h]

theorem workerLoop_cons (files : List String)
    (render : String → ℚ → Option String) (saveOk : String → Bool)
    (obs : Int → Int) (i : Int) (rest : List Int) (mem disk) :
    workerLoop files render saveOk obs (i :: rest) mem disk =
      (let a := processOne files render saveOk obs i mem disk
       let r := workerLoop files render saveOk obs rest a.1 a.2.1
       (r.1, r.2.1, a.2.2 ++ r.2.2)) := rfl

theorem workerLoop_frame (files : List String)
    (render : String → ℚ → Option String) (saveOk : String → Bool)
    (obs : Int → Int) :
    ∀ (idxs : List Int) (mem disk) (q : String),
    (∀ i ∈ idxs, ¬ i = obs i → getAt files i ≠ q) →
    alookup (workerLoop files render saveOk obs idxs mem disk).1 q =
      alookup mem q ∧
    alookup (workerLoop files render saveOk obs idxs mem disk).2.1 q =
      alookup disk q := by
  intro idxs
  induction idxs with
  | nil => exact fun mem disk q _ => ⟨rfl, rfl⟩
  | cons i rest ih =>
    intro mem disk q h
    rw [workerLoop_cons]
    dsimp only
    have hstep : alookup (processOne files render saveOk obs i mem disk).1 q =
        alookup mem q ∧
        alookup (processOne files render saveOk obs i mem disk).2.1 q =
        alookup disk q := by
      by_cases hio : i = obs i
      · rw [processOne_noop files render saveOk obs i mem disk hio]
        exact ⟨rfl, rfl⟩
      · exact processOne_frame files render saveOk obs i mem disk q
          (h i (List.mem_cons_self i rest) hio)
    have hrest := ih (processOne files render saveOk obs i mem disk).1
      (processOne files render saveOk obs i mem disk).2.1 q
      (fun j hj hjo => h j (List.mem_cons_of_mem i hj) hjo)
    exact ⟨hrest.1.trans hstep.1, hrest.2.trans hstep.2⟩

theorem workerLoop_at (files : List String)
    (render : String → ℚ → Option String) (saveOk : String → Bool)
    (obs : Int → Int) :
    ∀ (idxs : List Int) (mem disk) (i : Int),
    idxs.Pairwise (fun a b => getAt files a ≠ getAt files b) →
    i ∈ idxs → ¬ i = obs i →
    alookup (workerLoop files render saveOk obs idxs mem disk).2.1
        (getAt files i) = workerDiskOutcome files render saveOk disk i ∧
    alookup (workerLoop files render saveOk obs idxs mem disk).1
        (getAt files i) = workerMemOutcome files render obs mem disk i := by
  intro idxs
  induction idxs with
  | nil => intro mem disk i _ hmem; exact absurd hmem (List.not_mem_nil i)
  | cons j rest ih =>
    intro mem disk i hpw hmem hio
    rcases List.pairwise_cons.mp hpw with ⟨hj, hrest⟩
    rw [workerLoop_cons]
    dsimp only
    rcases List.mem_cons.mp hmem with hij | hmem2
    · subst hij
      have hframe := workerLoop_frame files render saveOk obs rest
        (processOne files render saveOk obs i mem disk).1
        (processOne files render saveOk obs i mem disk).2.1 (getAt files i)
        (fun k hk _ => fun he => (hj k hk) he.symm)
      have hat := processOne_at files render saveOk obs i mem disk hio
      exact ⟨hframe.2.trans hat.1, hframe.1.trans hat.2⟩
    · have hne : getAt files j ≠ getAt files i := hj i hmem2
      have hstep : alookup (processOne files render saveOk obs j mem disk).1
            (getAt files i) = alookup mem (getAt files i) ∧
          alookup (processOne files render saveOk obs j mem disk).2.1
            (getAt files i) = alookup disk (getAt files i) := by
        by_cases hjo : j = obs j
        · rw [processOne_noop files render saveOk obs j mem disk hjo]
          exact ⟨rfl, rfl⟩
        · exact processOne_frame files render saveOk obs j mem disk _ hne
      have hrec := ih (processOne files render saveOk obs j mem disk).1
        (processOne files render saveOk obs j mem disk).2.1 i hrest hmem2 hio
      refine ⟨hrec.1.trans ?_, hrec.2.trans ?_⟩
      · exact workerDiskOutcome_congr files render saveOk _ _ i hstep.2
      · exact workerMemOutcome_congr files render obs _ _ _ _ i hstep.2 hstep.1

theorem workerLoop_events (files : List String)
    (render : String → ℚ → Option String) (saveOk : String → Bool)
    (obs : Int → Int) :
    ∀ (idxs : List Int) (mem disk),
    idxs.Pairwise (fun a b => getAt files a ≠ getAt files b) →
    (workerLoop files render saveOk obs idxs mem disk).2.2 =
      idxs.filterMap (fun i =>
        if i = obs i then none
        else some (workerEvent files render obs disk i)) := by
  intro idxs
  induction idxs with
  | nil => intro mem disk _; rfl
  | cons j rest ih =>
    intro mem disk hpw
    rcases List.pairwise_cons.mp hpw with ⟨hj, hrest⟩
    rw [workerLoop_cons]
    dsimp only
    rw [processOne_log files render saveOk obs j mem disk]
    rw [ih (processOne files render saveOk obs j mem disk).1
      (processOne files render saveOk obs j mem disk).2.1 hrest]
    have hcong : ∀ i ∈ rest,
        (fun i => if i = obs i then none
          else some (workerEvent files render obs
            (processOne files render saveOk obs j mem disk).2.1 i)) i =
        (fun i => if i = obs i then none
          else some (workerEvent files render obs disk i)) i := by
      intro i hi
      dsimp only
      by_cases hio : i = obs i
      · rw [if_pos hio, if_pos hio]
      · rw [if_neg hio, if_neg hio]
        have hne : getAt files j ≠ getAt files i := hj i hi
        have hstep : alookup (processOne files render saveOk obs j mem disk).2.1
            (getAt files i) = alookup disk (getAt files i) := by
          by_cases hjo : j = obs j
          · rw [processOne_noop files render saveOk obs j mem disk hjo]
          · exact (processOne_frame files render saveOk obs j mem disk _ hne).2
        rw [workerEvent_congr files render obs _ _ i hstep]
    rw [List.filterMap_congr hcong]
    rw [List.filterMap_cons]
    by_cases hjo : j = obs j
    · rw [if_pos hjo, if_pos hjo]
      rfl
    · rw [if_neg hjo, if_neg hjo]
      rfl

/-! ### Cleanup lemmas -/

/-- Keys kept in the memory cache by `_cleanup_memory_cache` at cursor
`cursor`. -/
def keepKeys (files : List String) (cursor : Int) : List String :=
  (intRange (max 0 (cursor - 1))
    (min (files.length : Int) (cursor + 2))).map (getAt files)

theorem cleanup_eq (files : List String) (cursor : Int) (cache) :
    cleanup_memory_cache files cursor cache =
      if files.isEmpty then cache
      else cache.filter (fun kv => decide (kv.1 ∈ keepKeys files cursor)) := rfl

theorem alookup_cleanup (files : List String) (cursor : Int) (cache) (q : String)
    (hne : ¬ files.isEmpty = true) :
    alookup (cleanup_memory_cache files cursor cache) q =
      if q ∈ keepKeys files cursor then alookup cache q else none := by
  rw [cleanup_eq, if_neg hne]
  rw [alookup_filter_key cache (fun x => decide (x ∈ keepKeys files cursor)) q]
  by_cases hq : q ∈ keepKeys files cursor
  · rw [if_pos (by simpa using hq), if_pos hq]
  · rw [if_neg (by simpa using hq), if_neg hq]

theorem mem_keepKeys_getAt (files : List String) (hnd : files.Nodup) (cursor i : Int)
    (h0 : 0 ≤ i) (h1 : i < (files.length : Int)) :
    getAt files i ∈ keepKeys files cursor ↔ (i - cursor).natAbs ≤ 1 := by
  unfold keepKeys
  constructor
  · intro h
    rcases List.mem_map.mp h with ⟨x, hx, heq⟩
    rcases mem_intRange.mp hx with ⟨hx1, hx2⟩
    have hxi : x = i := getAt_inj files hnd x i (by omega) (by omega) h0 h1 heq
    omega
  · intro h
    exact List.mem_map.mpr ⟨i, mem_intRange.mpr ⟨by omega, by omega⟩, rfl⟩

theorem mem_keepKeys_elim (files : List String) (cursor : Int) (q : String)
    (h : q ∈ keepKeys files cursor) :
    ∃ j : Nat, (j : Int) < (files.length : Int) ∧ getAt files (j : Int) = q ∧
      ((j : Int) - cursor).natAbs ≤ 1 := by
  rcases List.mem_map.mp h with ⟨x, hx, heq⟩
  rcases mem_intRange.mp hx with ⟨hx1, hx2⟩
  refine ⟨x.toNat, by omega, ?_, by omega⟩
  have : ((x.toNat : Int)) = x := by omega
  rw [this]
  exact heq

theorem length_keepKeys_le (files : List String) (cursor : Int) :
    (keepKeys files cursor).length ≤ min 3 files.length := by
  unfold keepKeys
  rw [List.length_map, length_intRange]
  omega

theorem cleanup_size_le (files : List String) (cursor : Int) (cache)
    (hne : ¬ files.isEmpty = true) (hk : keysNodup cache) :
    (cleanup_memory_cache files cursor cache).length ≤ min 3 files.length := by
  rw [cleanup_eq, if_neg hne]
  set cache' := cache.filter (fun kv => decide (kv.1 ∈ keepKeys files cursor)) with hc
  have hnk : keysNodup cache' := keysNodup_filter cache _ hk
  have hsubset : ∀ x ∈ cache'.map Prod.fst, x ∈ keepKeys files cursor := by
    intro x hx
    rcases List.mem_map.mp hx with ⟨kv, hkv, hfst⟩
    rcases List.mem_filter.mp hkv with ⟨_, hpred⟩
    rw [hfst] at hpred
    simpa using hpred
  have hlen : cache'.length = (cache'.map Prod.fst).length := by
    rw [List.length_map]
  rw [hlen]
  calc (cache'.map Prod.fst).length
      = (cache'.map Prod.fst).toFinset.card := (List.toFinset_card_of_nodup hnk).symm
    _ ≤ (keepKeys files cursor).toFinset.card := by
        apply Finset.card_le_card
        intro x hx
        rw [List.mem_toFinset] at *
        exact hsubset x hx
    _ ≤ (keepKeys files cursor).length := List.toFinset_card_le _
    _ ≤ min 3 files.length := length_keepKeys_le files cursor

/-! ### Preload-window lemmas -/

theorem mem_preloadWindow (st : FBState) (i : Int) :
    i ∈ preloadWindow st ↔
      max 0 (st.current_index - file_cache_range) ≤ i ∧
      i < min (st.image_files.length : Int)
        (st.current_index + file_cache_range + 1) := by
  unfold preloadWindow
  exact mem_intRange

theorem preloadWindow_pathPairwise (st : FBState) (hnd : st.image_files.Nodup) :
    (preloadWindow st).Pairwise
      (fun a b => getAt st.image_files a ≠ getAt st.image_files b) := by
  have hpw : (preloadWindow st).Pairwise (· < ·) := intRange_pairwise _ _
  refine List.Pairwise.imp_of_mem ?_ hpw
  intro a b ha hb hlt heq
  rcases (mem_preloadWindow st a).mp ha with ⟨ha1, ha2⟩
  rcases (mem_preloadWindow st b).mp hb with ⟨hb1, hb2⟩
  have := getAt_inj st.image_files hnd a b (by omega) (by omega) (by omega)
    (by omega) heq
  omega

theorem workerLoop_idx (files : List String)
    (render : String → ℚ → Option String) (saveOk : String → Bool)
    (obs : Int → Int) :
    ∀ (idxs : List Int) (mem disk),
    ((workerLoop files render saveOk obs idxs mem disk).2.2.map pevIdx) =
      idxs.filter (fun i => !decide (i = obs i)) := by
  intro idxs
  induction idxs with
  | nil => intro mem disk; rfl
  | cons j rest ih =>
    intro mem disk
    rw [workerLoop_cons]
    dsimp only
    rw [List.map_append, processOne_log, ih]
    by_cases hjo : j = obs j
    · rw [if_pos hjo, List.filter_cons, if_neg (by rw [decide_eq_true hjo]; simp)]
      simp
    · rw [if_neg hjo, List.filter_cons, if_pos (by simp [hjo])]
      simp [pevIdx_workerEvent]

theorem workerLoop_keysNodup (files : List String)
    (render : String → ℚ → Option String) (saveOk : String → Bool)
    (obs : Int → Int) :
    ∀ (idxs : List Int) (mem disk), keysNodup mem →
    keysNodup (workerLoop files render saveOk obs idxs mem disk).1 := by
  intro idxs
  induction idxs with
  | nil => intro mem disk h; exact h
  | cons j rest ih =>
    intro mem disk h
    rw [workerLoop_cons]
    dsimp only
    apply ih
    by_cases hjo : j = obs j
    · rw [processOne_noop files render saveOk obs j mem disk hjo]
      exact h
    · rw [processOne_processed files render saveOk obs j mem disk hjo]
      dsimp only
      split
      · exact keysNodup_ainsert _ _ _ h
      · exact h

/-! ### render_worker packaged lemmas -/

theorem render_worker_files (st : FBState) (render saveOk obs cEnd) :
    (render_worker st render saveOk obs cEnd).1.image_files = st.image_files := rfl

theorem render_worker_index (st : FBState) (render saveOk obs cEnd) :
    (render_worker st render saveOk obs cEnd).1.current_index =
      st.current_index := rfl

theorem render_worker_events (st : FBState) (render saveOk obs cEnd)
    (hnd : st.image_files.Nodup) :
    (render_worker st render saveOk obs cEnd).2 =
      (preloadWindow st).filterMap (fun i =>
        if i = obs i then none
        else some (workerEvent st.image_files render obs st.temp_cache i)) := by
  unfold render_worker
  dsimp only
  exact workerLoop_events st.image_files render saveOk obs (preloadWindow st)
    st.render_cache st.temp_cache (preloadWindow_pathPairwise st hnd)

theorem render_worker_idx (st : FBState) (render saveOk obs cEnd) :
    ((render_worker st render saveOk obs cEnd).2.map pevIdx) =
      (preloadWindow st).filter (fun i => !decide (i = obs i)) := by
  unfold render_worker
  dsimp only
  exact workerLoop_idx st.image_files render saveOk obs (preloadWindow st)
    st.render_cache st.temp_cache

theorem render_worker_disk_at (st : FBState) (render saveOk obs cEnd)
    (hnd : st.image_files.Nodup) (i : Int) (hi : i ∈ preloadWindow st)
    (hio : ¬ i = obs i) :
    alookup (render_worker st render saveOk obs cEnd).1.temp_cache
        (getAt st.image_files i) =
      workerDiskOutcome st.image_files render saveOk st.temp_cache i := by
  unfold render_worker
  dsimp only
  exact (workerLoop_at st.image_files render saveOk obs (preloadWindow st)
    st.render_cache st.temp_cache i (preloadWindow_pathPairwise st hnd) hi hio).1

theorem files_not_isEmpty_of_mem_window (st : FBState) (i : Int)
    (hi : i ∈ preloadWindow st) : ¬ st.image_files.isEmpty = true := by
  rcases (mem_preloadWindow st i).mp hi with ⟨h1, h2⟩
  cases hfc : st.image_files with
  | nil =>
    rw [hfc] at h2
    simp only [List.length_nil, Nat.cast_zero] at h2
    omega
  | cons a t => simp

theorem render_worker_mem_at (st : FBState) (render saveOk obs cEnd)
    (hnd : st.image_files.Nodup) (i : Int) (hi : i ∈ preloadWindow st)
    (hio : ¬ i = obs i) :
    alookup (render_worker st render saveOk obs cEnd).1.render_cache
        (getAt st.image_files i) =
      (if getAt st.image_files i ∈ keepKeys st.image_files cEnd then
        workerMemOutcome st.image_files render obs st.render_cache
          st.temp_cache i
      else none) := by
  unfold render_worker
  dsimp only
  rw [alookup_cleanup st.image_files cEnd _ _
    (files_not_isEmpty_of_mem_window st i hi)]
  rw [(workerLoop_at st.image_files render saveOk obs (preloadWindow st)
    st.render_cache st.temp_cache i (preloadWindow_pathPairwise st hnd) hi hio).2]

/-! ### Component-preservation lemmas -/

theorem preload_renders_pending (s : FBState)
    (hie : ¬ s.image_files.isEmpty = true) (hen : s.preload_enabled = true) :
    (preload_renders s).pending = s.pending + 1 := by
  unfold preload_renders
  rw [if_neg (by simp [hie, hen])]

theorem preload_renders_render_cache (s : FBState) :
    (preload_renders s).render_cache = s.render_cache := by
  unfold preload_renders
  split <;> rfl

theorem preload_renders_temp_cache (s : FBState) :
    (preload_renders s).temp_cache = s.temp_cache := by
  unfold preload_renders
  split <;> rfl

theorem preload_renders_files (s : FBState) :
    (preload_renders s).image_files = s.image_files := by
  unfold preload_renders
  split <;> rfl

theorem preload_renders_index (s : FBState) :
    (preload_renders s).current_index = s.current_index := by
  unfold preload_renders
  split <;> rfl

theorem umcos_files (s : FBState) :
    (update_memory_cache_on_switch s).image_files = s.image_files := by
  unfold update_memory_cache_on_switch
  split
  · rfl
  · dsimp only
    repeat' split
    all_goals rfl

theorem umcos_index (s : FBState) :
    (update_memory_cache_on_switch s).current_index = s.current_index := by
  unfold update_memory_cache_on_switch
  split
  · rfl
  · dsimp only
    repeat' split
    all_goals rfl

theorem umcos_temp_cache (s : FBState) :
    (update_memory_cache_on_switch s).temp_cache = s.temp_cache := by
  unfold update_memory_cache_on_switch
  split
  · rfl
  · dsimp only
    repeat' split
    all_goals rfl

theorem next_image_empty (s : FBState) (h : s.image_files = []) :
    next_image s = (false, s) := by
  unfold next_image
  rw [if_pos (by simp [h])]

theorem previous_image_empty (s : FBState) (h : s.image_files = []) :
    previous_image s = (false, s) := by
  unfold previous_image
  rw [if_pos (by simp [h])]

theorem next_image_files (s : FBState) :
    (next_image s).2.image_files = s.image_files := by
  unfold next_image
  by_cases h : s.image_files.isEmpty
  · rw [if_pos h]
  · rw [if_neg h]
    dsimp only
    rw [preload_renders_files, umcos_files]

theorem previous_image_files (s : FBState) :
    (previous_image s).2.image_files = s.image_files := by
  unfold previous_image
  by_cases h : s.image_files.isEmpty
  · rw [if_pos h]
  · rw [if_neg h]
    dsimp only
    rw [preload_renders_files, umcos_files]

theorem next_image_index (s : FBState) (h : ¬ s.image_files.isEmpty = true) :
    (next_image s).2.current_index =
      (s.current_index + 1) % (s.image_files.length : Int) := by
  unfold next_image
  rw [if_neg h]
  dsimp only
  rw [preload_renders_index, umcos_index]

theorem previous_image_index (s : FBState) (h : ¬ s.image_files.isEmpty = true) :
    (previous_image s).2.current_index =
      (s.current_index - 1) % (s.image_files.length : Int) := by
  unfold previous_image
  rw [if_neg h]
  dsimp only
  rw [preload_renders_index, umcos_index]

theorem filterMap_if_eq_map_filter {α : Type} (g : Int → α) (P : Int → Prop)
    [DecidablePred P] (l : List Int) :
    l.filterMap (fun i => if P i then none else some (g i)) =
      (l.filter (fun i => !decide (P i))).map g := by
  induction l with
  | nil => rfl
  | cons j rest ih =>
    rw [List.filterMap_cons, List.filter_cons]
    by_cases hp : P j
    · rw [if_pos hp, if_neg (by simp [hp]), ih]
    · rw [if_neg hp, if_pos (by simp [hp]), List.map_cons, ih]

theorem render_worker_paths (st : FBState) (render saveOk obs cEnd)
    (hnd : st.image_files.Nodup) :
    ((render_worker st render saveOk obs cEnd).2.map pevPath) =
      ((preloadWindow st).filter (fun i => !decide (i = obs i))).map
        (getAt st.image_files) := by
  rw [render_worker_events st render saveOk obs cEnd hnd, List.map_filterMap]
  have hcong : ∀ i ∈ preloadWindow st,
      ((if i = obs i then none
        else some (workerEvent st.image_files render obs st.temp_cache i)).map
          pevPath) =
      (if i = obs i then none else some (getAt st.image_files i)) := by
    intro i _
    by_cases hio : i = obs i
    · rw [if_pos hio, if_pos hio]
      rfl
    · rw [if_neg hio, if_neg hio]
      show some (pevPath (workerEvent st.image_files render obs st.temp_cache i)) =
        some (getAt st.image_files i)
      rw [pevPath_workerEvent]
  rw [List.filterMap_congr hcong]
  exact filterMap_if_eq_map_filter (getAt st.image_files) (fun i => i = obs i) _

theorem render_worker_paths_nodup (st : FBState) (render saveOk obs cEnd)
    (hnd : st.image_files.Nodup) :
    ((render_worker st render saveOk obs cEnd).2.map pevPath).Nodup := by
  rw [render_worker_paths st render saveOk obs cEnd hnd]
  have hsub : ∀ i ∈ (preloadWindow st).filter (fun i => !decide (i = obs i)),
      i ∈ preloadWindow st := fun i hi => (List.mem_filter.mp hi).1
  have hpwf : ((preloadWindow st).filter
      (fun i => !decide (i = obs i))).Pairwise (· < ·) :=
    List.Pairwise.filter _ (intRange_pairwise _ _)
  have hnodup : ((preloadWindow st).filter
      (fun i => !decide (i = obs i))).Nodup :=
    hpwf.imp (fun h => ne_of_lt h)
  refine List.Nodup.map_on ?_ hnodup
  intro x hx y hy heq
  rcases (mem_preloadWindow st x).mp (hsub x hx) with ⟨hx1, hx2⟩
  rcases (mem_preloadWindow st y).mp (hsub y hy) with ⟨hy1, hy2⟩
  exact getAt_inj st.image_files hnd x y (by omega) (by omega) (by omega)
    (by omega) heq

/-! ### Claim C1 -/

/-- Concrete state with one preload pass already submitted (`pending = 1`),
a non-empty catalog and preloading enabled. -/
def stC1 : FBState := ⟨["a.jpg"], 0, [], [], true, 1⟩

/-- Claim C1, counterexample: with one pass already running
(one task pending), a trigger is not a no-op — `preload_renders`
unconditionally submits another worker task to the executor queue, and a
second back-to-back trigger submits a third, refuting the claim that a
trigger received while a pass is running queues no second pass. -/
theorem c1_counterexample :
    (preload_renders stC1).pending = 2 ∧
    (preload_renders (preload_renders stC1)).pending = 3 ∧
    ¬ (preload_renders stC1).pending = stC1.pending := by decide

/-- Claim C1 (amended): every trigger on a non-empty catalog with
preloading enabled submits one further preload pass to the executor queue
regardless of whether a pass is already running, so two back-to-back
triggers submit two passes (which the two-worker pool may run
concurrently); within any single pass the visited indices are strictly
increasing, and — for a duplicate-free catalog — no entry is rendered
twice within that pass. -/
theorem c1_amended (st : FBState) (hne : st.image_files ≠ [])
    (hen : st.preload_enabled = true) :
    (preload_renders st).pending = st.pending + 1 ∧
    (preload_renders (preload_renders st)).pending = st.pending + 2 ∧
    render_executor_max_workers = 2 ∧
    (∀ render saveOk obs cEnd,
      ((render_worker st render saveOk obs cEnd).2.map pevIdx).Pairwise
        (· < ·)) ∧
    (st.image_files.Nodup → ∀ render saveOk obs cEnd,
      ((render_worker st render saveOk obs cEnd).2.map pevPath).Nodup) := by
  have hie : ¬ st.image_files.isEmpty = true := by
    cases h : st.image_files
    · exact absurd h hne
    · simp
  have hen2 : (preload_renders st).preload_enabled = st.preload_enabled := by
    unfold preload_renders
    split <;> rfl
  have h1 := preload_renders_pending st hie hen
  have h2 := preload_renders_pending (preload_renders st)
    (by rw [preload_renders_files]; exact hie) (by rw [hen2]; exact hen)
  refine ⟨h1, ?_, rfl, ?_, ?_⟩
  · rw [h2, h1]
  · intro render saveOk obs cEnd
    rw [render_worker_idx]
    exact List.Pairwise.filter _ (intRange_pairwise _ _)
  · intro hnd render saveOk obs cEnd
    exact render_worker_paths_nodup st render saveOk obs cEnd hnd

/-- Witness for the amended C1 at the concrete state stC1. -/
theorem c1_witness :
    (preload_renders stC1).pending = stC1.pending + 1 ∧
    (preload_renders (preload_renders stC1)).pending = stC1.pending + 2 ∧
    render_executor_max_workers = 2 ∧
    (∀ render saveOk obs cEnd,
      ((render_worker stC1 render saveOk obs cEnd).2.map pevIdx).Pairwise
        (· < ·)) ∧
    (stC1.image_files.Nodup → ∀ render saveOk obs cEnd,
      ((render_worker stC1 render saveOk obs cEnd).2.map pevPath).Nodup) :=
  c1_amended stC1 (by decide) (by decide)

/-! ### Claim C4 -/

/-- Concrete pre-rescan state whose cursor is 2. -/
def stC4 : FBState := ⟨["x.jpg"], 2, [], [], true, 0⟩

/-- Claim C4, counterexample: when the directory listing fails, the
rebuild clears both caches and the catalog but does not reset the cursor —
`self.current_index = 0` sits inside the try block after the listing loop —
so from a state with cursor 2 the cursor is still 2, refuting the clause
that Cursor = 0 also holds when listing fails. -/
theorem c4_counterexample :
    (refresh_file_list stC4 none).render_cache = [] ∧
    (refresh_file_list stC4 none).temp_cache = [] ∧
    (refresh_file_list stC4 none).image_files = [] ∧
    ¬ (refresh_file_list stC4 none).current_index = 0 := by decide

/-- Claim C4 (amended): immediately after `refresh_file_list`, MemoryCache
and DiskCache are both empty; when the listing fails the catalog is left
empty and the cursor retains its previous value (it is reset to 0 only on
a successful listing), and no exception escapes (the model is total on
both outcomes). -/
theorem c4_amended (st : FBState) (listing : Option (List DirItem)) :
    (refresh_file_list st listing).render_cache = [] ∧
    (refresh_file_list st listing).temp_cache = [] ∧
    (listing = none → (refresh_file_list st listing).image_files = [] ∧
      (refresh_file_list st listing).current_index = st.current_index) ∧
    (∀ items, listing = some items →
      (refresh_file_list st listing).current_index = 0) := by
  cases listing with
  | none =>
    refine ⟨rfl, rfl, fun _ => ⟨rfl, rfl⟩, fun items h => Option.noConfusion h⟩
  | some items =>
    unfold refresh_file_list
    dsimp only
    refine ⟨?_, ?_, fun h => Option.noConfusion h, fun items2 _ => ?_⟩
    · rw [preload_renders_render_cache]
    · rw [preload_renders_temp_cache]
    · rw [preload_renders_index]

/-- Witness for the amended C4 at concrete inputs (a successful listing of
two image files and one non-image file). -/
theorem c4_witness :
    (refresh_file_list stC4
      (some [⟨"b.jpg", true⟩, ⟨"a.jpg", true⟩, ⟨"c.txt", true⟩])).render_cache
        = [] ∧
    (refresh_file_list stC4
      (some [⟨"b.jpg", true⟩, ⟨"a.jpg", true⟩, ⟨"c.txt", true⟩])).temp_cache
        = [] ∧
    ((some [⟨"b.jpg", true⟩, ⟨"a.jpg", true⟩, ⟨"c.txt", true⟩] :
        Option (List DirItem)) = none →
      (refresh_file_list stC4
        (some [⟨"b.jpg", true⟩, ⟨"a.jpg", true⟩, ⟨"c.txt", true⟩])).image_files
          = [] ∧
      (refresh_file_list stC4
        (some [⟨"b.jpg", true⟩, ⟨"a.jpg", true⟩,
          ⟨"c.txt", true⟩])).current_index = stC4.current_index) ∧
    (∀ items, (some [⟨"b.jpg", true⟩, ⟨"a.jpg", true⟩, ⟨"c.txt", true⟩] :
        Option (List DirItem)) = some items →
      (refresh_file_list stC4
        (some [⟨"b.jpg", true⟩, ⟨"a.jpg", true⟩,
          ⟨"c.txt", true⟩])).current_index = 0) :=
  c4_amended stC4 (some [⟨"b.jpg", true⟩, ⟨"a.jpg", true⟩, ⟨"c.txt", true⟩])

/-! ### Claim C7 -/

theorem advanceFwd_index (m : Nat) : ∀ (st : FBState), st.image_files ≠ [] →
    0 ≤ st.current_index → st.current_index < (st.image_files.length : Int) →
    (advanceFwd m st).current_index =
      (st.current_index + (m : Int)) % (st.image_files.length : Int) := by
  induction m with
  | zero =>
    intro st hne h0 h1
    show st.current_index = _
    rw [Nat.cast_zero, add_zero, Int.emod_eq_of_lt h0 h1]
  | succ m ih =>
    intro st hne h0 h1
    have hie : ¬ st.image_files.isEmpty = true := by
      cases h : st.image_files
      · exact absurd h hne
      · simp
    have hlen : (0 : Int) < (st.image_files.length : Int) := by
      cases h : st.image_files with
      | nil => exact absurd h hne
      | cons a t => simp
    have hst' := next_image_index st hie
    have hfiles' := next_image_files st
    have h0' : 0 ≤ (next_image st).2.current_index := by
      rw [hst']
      exact Int.emod_nonneg _ (by omega)
    have h1' : (next_image st).2.current_index <
        ((next_image st).2.image_files.length : Int) := by
      rw [hst', hfiles']
      exact Int.emod_lt_of_pos _ hlen
    have hne' : (next_image st).2.image_files ≠ [] := by
      rw [hfiles']
      exact hne
    show (advanceFwd m (next_image st).2).current_index = _
    rw [ih (next_image st).2 hne' h0' h1', hst', hfiles', Int.emod_add_emod]
    congr 1
    push_cast
    ring

theorem advanceBwd_index (m : Nat) : ∀ (st : FBState), st.image_files ≠ [] →
    0 ≤ st.current_index → st.current_index < (st.image_files.length : Int) →
    (advanceBwd m st).current_index =
      (st.current_index - (m : Int)) % (st.image_files.length : Int) := by
  induction m with
  | zero =>
    intro st hne h0 h1
    show st.current_index = _
    rw [Nat.cast_zero, sub_zero, Int.emod_eq_of_lt h0 h1]
  | succ m ih =>
    intro st hne h0 h1
    have hie : ¬ st.image_files.isEmpty = true := by
      cases h : st.image_files
      · exact absurd h hne
      · simp
    have hlen : (0 : Int) < (st.image_files.length : Int) := by
      cases h : st.image_files with
      | nil => exact absurd h hne
      | cons a t => simp
    have hst' := previous_image_index st hie
    have hfiles' := previous_image_files st
    have h0' : 0 ≤ (previous_image st).2.current_index := by
      rw [hst']
      exact Int.emod_nonneg _ (by omega)
    have h1' : (previous_image st).2.current_index <
        ((previous_image st).2.image_files.length : Int) := by
      rw [hst', hfiles']
      exact Int.emod_lt_of_pos _ hlen
    have hne' : (previous_image st).2.image_files ≠ [] := by
      rw [hfiles']
      exact hne
    show (advanceBwd m (previous_image st).2).current_index = _
    rw [ih (previous_image st).2 hne' h0' h1', hst', hfiles']
    rw [sub_eq_add_neg ((st.current_index - 1) %
      (st.image_files.length : Int)) _, Int.emod_add_emod, ← sub_eq_add_neg]
    congr 1
    push_cast
    ring

/-- Claim C7: on a non-empty catalog of size N, advancing forward m times
from a valid cursor s yields cursor (s + m) mod N and advancing backward m
times yields (s - m) mod N (Python % semantics, i.e. the representative in
[0, N)); on an empty catalog both directions report failure and leave the
whole state unchanged. -/
theorem c7_wraparound (st : FBState) (m : Nat) (hne : st.image_files ≠ [])
    (h0 : 0 ≤ st.current_index)
    (h1 : st.current_index < (st.image_files.length : Int)) :
    (advanceFwd m st).current_index =
      (st.current_index + (m : Int)) % (st.image_files.length : Int) ∧
    (advanceBwd m st).current_index =
      (st.current_index - (m : Int)) % (st.image_files.length : Int) ∧
    (∀ s0 : FBState, s0.image_files = [] →
      next_image s0 = (false, s0) ∧ previous_image s0 = (false, s0)) :=
  ⟨advanceFwd_index m st hne h0 h1, advanceBwd_index m st hne h0 h1,
    fun s0 h => ⟨next_image_empty s0 h, previous_image_empty s0 h⟩⟩

/-- Concrete three-entry state for the C7 witness. -/
def stC7 : FBState := ⟨["a.jpg", "b.jpg", "c.jpg"], 1, [], [], true, 0⟩

/-- Witness for C7 at the concrete state stC7 with m = 5. -/
theorem c7_witness :
    (advanceFwd 5 stC7).current_index =
      (stC7.current_index + ((5 : Nat) : Int)) %
        (stC7.image_files.length : Int) ∧
    (advanceBwd 5 stC7).current_index =
      (stC7.current_index - ((5 : Nat) : Int)) %
        (stC7.image_files.length : Int) ∧
    (∀ s0 : FBState, s0.image_files = [] →
      next_image s0 = (false, s0) ∧ previous_image s0 = (false, s0)) :=
  c7_wraparound stC7 5 (by decide) (by decide) (by decide)

/-! ### Claim C2 -/

/-- Invariant claimed for the memory cache after settling: every cached
entry sits at a catalog index within distance 1 of the cursor, and the
cache holds at most min(3, K) entries. -/
def memCacheInv (s : FBState) : Prop :=
  (∀ p ∈ s.render_cache.map Prod.fst,
    ∃ j : Nat, (j : Int) < (s.image_files.length : Int) ∧
      getAt s.image_files (j : Int) = p ∧
      ((j : Int) - s.current_index).natAbs ≤ 1) ∧
  s.render_cache.length ≤ min 3 s.image_files.length

theorem cleanup_inv_parts (files : List String) (c : Int) (cache)
    (hne : ¬ files.isEmpty = true) (hk : keysNodup cache) :
    (∀ p ∈ (cleanup_memory_cache files c cache).map Prod.fst,
      ∃ j : Nat, (j : Int) < (files.length : Int) ∧
        getAt files (j : Int) = p ∧ ((j : Int) - c).natAbs ≤ 1) ∧
    (cleanup_memory_cache files c cache).length ≤ min 3 files.length := by
  constructor
  · intro p hp
    rw [cleanup_eq, if_neg hne] at hp
    rcases List.mem_map.mp hp with ⟨kv, hkv, hfst⟩
    rcases List.mem_filter.mp hkv with ⟨_, hpred⟩
    rw [hfst] at hpred
    have hmem : p ∈ keepKeys files c := by simpa using hpred
    exact mem_keepKeys_elim files c p hmem
  · exact cleanup_size_le files c cache hne hk

theorem umcos_render_cache (s : FBState) (hie : ¬ s.image_files.isEmpty = true) :
    ∃ cx : List (String × String),
      (update_memory_cache_on_switch s).render_cache =
        cleanup_memory_cache s.image_files s.current_index cx ∧
      (keysNodup s.render_cache → keysNodup cx) := by
  unfold update_memory_cache_on_switch
  rw [if_neg hie]
  dsimp only
  split
  · split
    · split
      · split
        · exact ⟨s.render_cache, rfl, id⟩
        · exact ⟨_, rfl, fun hk => keysNodup_ainsert _ _ _ hk⟩
      · exact ⟨s.render_cache, rfl, id⟩
    · exact ⟨s.render_cache, rfl, id⟩
  · exact ⟨s.render_cache, rfl, id⟩

/-- Claim C2: for a non-empty, duplicate-free catalog, after the memory
cache cleanup that ends a navigation step (forward or backward) or a
preload pass (with the cleanup observing the unmoved cursor), every
memory-cache entry has a catalog index within distance 1 of the current
cursor, and the cache size is at most min(3, K). -/
theorem c2_memcache_invariant (st : FBState)
    (render : String → ℚ → Option String) (saveOk : String → Bool)
    (obs : Int → Int) (cEnd : Int) (hne : st.image_files ≠ [])
    (hk : keysNodup st.render_cache)
    (hcend : cEnd = st.current_index) :
    memCacheInv (next_image st).2 ∧ memCacheInv (previous_image st).2 ∧
    memCacheInv (render_worker st render saveOk obs cEnd).1 := by
  have hie : ¬ st.image_files.isEmpty = true := by
    cases h : st.image_files
    · exact absurd h hne
    · simp
  refine ⟨?_, ?_, ?_⟩
  · unfold next_image
    rw [if_neg hie]
    dsimp only
    obtain ⟨cx, hcx, hnk⟩ := umcos_render_cache
      { st with current_index :=
        (st.current_index + 1) % (st.image_files.length : Int) } hie
    unfold memCacheInv
    rw [preload_renders_render_cache, preload_renders_files,
      preload_renders_index, umcos_files, umcos_index, hcx]
    exact cleanup_inv_parts st.image_files _ cx hie (hnk hk)
  · unfold previous_image
    rw [if_neg hie]
    dsimp only
    obtain ⟨cx, hcx, hnk⟩ := umcos_render_cache
      { st with current_index :=
        (st.current_index - 1) % (st.image_files.length : Int) } hie
    unfold memCacheInv
    rw [preload_renders_render_cache, preload_renders_files,
      preload_renders_index, umcos_files, umcos_index, hcx]
    exact cleanup_inv_parts st.image_files _ cx hie (hnk hk)
  · unfold memCacheInv
    rw [render_worker_files, render_worker_index]
    have hc : (render_worker st render saveOk obs cEnd).1.render_cache =
        cleanup_memory_cache st.image_files cEnd
          (workerLoop st.image_files render saveOk obs (preloadWindow st)
            st.render_cache st.temp_cache).1 := rfl
    rw [hc, hcend]
    exact cleanup_inv_parts st.image_files st.current_index _ hie
      (workerLoop_keysNodup st.image_files render saveOk obs
        (preloadWindow st) st.render_cache st.temp_cache hk)

/-- Concrete state for the C2 witness. -/
def stC2 : FBState :=
  ⟨["a.jpg", "b.jpg", "c.jpg"], 1, [("a.jpg", "A"), ("c.jpg", "C")],
    [("b.jpg", DiskFile.ok "B")], true, 0⟩

/-- Constant successful renderer used by witnesses. -/
def rendOk : String → ℚ → Option String := fun _ _ => some "X"

/-- Witness for C2 at the concrete state stC2. -/
theorem c2_witness :
    memCacheInv (next_image stC2).2 ∧ memCacheInv (previous_image stC2).2 ∧
    memCacheInv (render_worker stC2 rendOk (fun _ => true)
      (fun _ => 1) 1).1 :=
  c2_memcache_invariant stC2 rendOk (fun _ => true) (fun _ => 1) 1
    (by decide) (by unfold keysNodup; decide) (by decide)

/-! ### Claim C3 -/

/-- Display options holding one zoom step above the default scale. -/
def optsC3 : DisplayOptions := ⟨DEFAULT_SCALE + SCALE_STEP⟩

/-- Concrete two-entry state at cursor 0 with empty caches. -/
def stC3 : FBState := ⟨["a.jpg", "b.jpg"], 0, [], [], true, 0⟩

/-- Claim C3, counterexample: the preload worker invokes the renderer with
the fixed default scale (the call site passes no scale argument), not with
the currently selected display scale — here the display scale is one zoom
step above the default, yet the single renderer call of the pass carries
`chafa_default_scale`. -/
theorem c3_counterexample :
    (render_worker stC3 rendOk (fun _ => true) (fun _ => 0) 0).2 =
      [PEvent.call 1 "b.jpg" chafa_default_scale true true] ∧
    ¬ chafa_default_scale = get_scale optsC3 := by
  constructor
  · rfl
  · intro h
    rw [chafa_default_scale, get_scale, optsC3] at h
    norm_num [DEFAULT_SCALE, SCALE_STEP] at h

/-- Behaviour of one sequential preload pass (claim C3, amended): the pass
produces exactly one event per window index other than the cursor, in
ascending order; an index whose entry is already on disk yields a skip
event without a renderer call; every renderer call of any pass carries the
fixed default scale and decides its memory write by the cursor value
observed live at that iteration; and a successful non-empty render of a
disk-missing entry lands in DiskCache (when its best-effort write
succeeds) and in MemoryCache exactly when the index is within distance 1
of the cursor. -/
def c3Spec (st : FBState) (render : String → ℚ → Option String)
    (saveOk : String → Bool) (obs : Int → Int) (cEnd : Int) : Prop :=
  (render_worker st render saveOk obs cEnd).2 =
    (preloadWindow st).filterMap (fun i =>
      if i = st.current_index then none
      else some (workerEvent st.image_files render obs st.temp_cache i)) ∧
  ((render_worker st render saveOk obs cEnd).2.map pevIdx).Pairwise (· < ·) ∧
  (∀ (obs2 : Int → Int) (i : Int) (p : String) (q : ℚ) (ok mw : Bool),
    PEvent.call i p q ok mw ∈ (render_worker st render saveOk obs2 cEnd).2 →
    q = chafa_default_scale ∧
    mw = (ok && is_in_memory_range st.image_files (obs2 i) p)) ∧
  (∀ i ∈ preloadWindow st, ¬ i = st.current_index →
    ∀ s : String, render (getAt st.image_files i) chafa_default_scale = some s →
    ¬ s = "" → alookup st.temp_cache (getAt st.image_files i) = none →
    saveOk (getAt st.image_files i) = true →
    alookup (render_worker st render saveOk obs cEnd).1.temp_cache
      (getAt st.image_files i) = some (DiskFile.ok s) ∧
    alookup (render_worker st render saveOk obs cEnd).1.render_cache
      (getAt st.image_files i) =
      (if (i - st.current_index).natAbs ≤ 1 then some s else none)) ∧
  (∀ i ∈ preloadWindow st, ¬ i = st.current_index →
    (alookup st.temp_cache (getAt st.image_files i)).isSome →
    PEvent.skip i (getAt st.image_files i) ∈
      (render_worker st render saveOk obs cEnd).2)

/-- Claim C3 (amended), proved for a sequential pass: catalog
duplicate-free, the cursor unmoved during the pass (every live read
observes the pass-start cursor) and the cleanup observing the same
cursor. -/
theorem c3_amended (st : FBState) (render : String → ℚ → Option String)
    (saveOk : String → Bool) (obs : Int → Int) (cEnd : Int)
    (hnd : st.image_files.Nodup)
    (hseq : ∀ i, obs i = st.current_index)
    (hcend : cEnd = st.current_index) :
    c3Spec st render saveOk obs cEnd := by
  unfold c3Spec
  subst hcend
  refine ⟨?_, ?_, ?_, ?_, ?_⟩
  · rw [render_worker_events st render saveOk obs st.current_index hnd]
    apply List.filterMap_congr
    intro i _
    rw [hseq i]
  · rw [render_worker_idx]
    exact List.Pairwise.filter _ (intRange_pairwise _ _)
  · intro obs2 i p q ok mw hmem
    rw [render_worker_events st render saveOk obs2 st.current_index hnd] at hmem
    rcases List.mem_filterMap.mp hmem with ⟨j, hj, hje⟩
    by_cases hjo : j = obs2 j
    · rw [if_pos hjo] at hje
      exact Option.noConfusion hje
    · rw [if_neg hjo] at hje
      have hev := Option.some.inj hje
      unfold workerEvent at hev
      by_cases hdisk : (alookup st.temp_cache (getAt st.image_files j)).isSome
      · rw [if_pos hdisk] at hev
        exact PEvent.noConfusion hev
      · rw [if_neg hdisk] at hev
        rcases PEvent.call.inj hev.symm with ⟨hi, hp, hq, hok, hmw⟩
        subst hi
        refine ⟨hq, ?_⟩
        rw [hmw, hok, hp]
  · intro i hi hic s hr hs hdn hsv
    have hio : ¬ i = obs i := by
      rw [hseq i]
      exact hic
    have hbounds := (mem_preloadWindow st i).mp hi
    have hlen : i < (st.image_files.length : Int) := by
      rcases hbounds with ⟨_, h2⟩
      omega
    have h0 : 0 ≤ i := by
      rcases hbounds with ⟨h1, _⟩
      omega
    constructor
    · rw [render_worker_disk_at st render saveOk obs st.current_index hnd i hi hio]
      unfold workerDiskOutcome
      rw [hdn]
      simp only [Option.isSome_none, Bool.false_eq_true, if_false, hr,
        if_neg hs, if_pos hsv]
    · rw [render_worker_mem_at st render saveOk obs st.current_index hnd
        i hi hio]
      have hkeep := mem_keepKeys_getAt st.image_files hnd st.current_index
        i h0 hlen
      have hinr : is_in_memory_range st.image_files (obs i)
          (getAt st.image_files i) =
          decide ((i - st.current_index).natAbs ≤ 1) := by
        rw [hseq i]
        exact is_in_memory_range_getAt st.image_files hnd st.current_index
          i h0 hlen
      unfold workerMemOutcome
      rw [hdn]
      simp only [Option.isSome_none, Bool.false_eq_true, if_false, hr,
        if_neg hs, hinr]
      by_cases hdist : (i - st.current_index).natAbs ≤ 1
      · rw [if_pos (hkeep.mpr hdist)]
        rw [if_pos (by simpa using hdist), if_pos hdist]
      · rw [if_neg (fun hmm => hdist (hkeep.mp hmm)), if_neg hdist]
  · intro i hi hic hdisk
    have hio : ¬ i = obs i := by
      rw [hseq i]
      exact hic
    rw [render_worker_events st render saveOk obs st.current_index hnd]
    apply List.mem_filterMap.mpr
    refine ⟨i, hi, ?_⟩
    rw [if_neg hio]
    unfold workerEvent
    rw [if_pos hdisk]

/-- Concrete three-entry state for the C3 witness. -/
def stC3w : FBState :=
  ⟨["a.jpg", "b.jpg", "c.jpg"], 0, [], [("c.jpg", DiskFile.ok "C")], true, 0⟩

/-- Witness for the amended C3 at the concrete state stC3w. -/
theorem c3_witness : c3Spec stC3w rendOk (fun _ => true) (fun _ => 0) 0 :=
  c3_amended stC3w rendOk (fun _ => true) (fun _ => 0) 0 (by decide)
    (fun i => rfl) rfl

/-! ### Claim C5 -/

theorem is_in_memory_range_iff (files : List String) (c : Int) (p : String) :
    is_in_memory_range files c p = true ↔
      ∃ j : Nat, idxOf? files p = some j ∧ ((j : Int) - c).natAbs ≤ 1 := by
  unfold is_in_memory_range
  by_cases he : files.isEmpty
  · rw [if_pos he]
    constructor
    · intro h
      exact Bool.noConfusion h
    · rintro ⟨j, hj, _⟩
      have hfe : files = [] := List.isEmpty_iff.mp he
      rw [hfe] at hj
      exact Option.noConfusion hj
  · rw [if_neg he]
    cases hidx : idxOf? files p with
    | some j => simp
    | none => simp

/-- Resolution order of the foreground read path (claim C5): a memory hit
is returned as is; otherwise a non-empty disk hit is returned and promoted
into MemoryCache exactly when the catalog index of the entry is within
distance 1 of the cursor; a disk read failure, like a full miss, returns
nothing from the cache and the display path falls back to a synchronous
renderer call whose outcome is reported, never raised. -/
def c5Spec (st : FBState) (p : String) : Prop :=
  (∀ t : String, alookup st.render_cache p = some t →
    get_rendered_image st p = (some t, st)) ∧
  (∀ d : String, ¬ d = "" → alookup st.render_cache p = none →
    alookup st.temp_cache p = some (DiskFile.ok d) →
    (get_rendered_image st p).1 = some d ∧
    (get_rendered_image st p).2.render_cache =
      (if is_in_memory_range st.image_files st.current_index p then
        ainsert st.render_cache p d
      else st.render_cache) ∧
    (is_in_memory_range st.image_files st.current_index p = true ↔
      ∃ j : Nat, idxOf? st.image_files p = some j ∧
        ((j : Int) - st.current_index).natAbs ≤ 1)) ∧
  (alookup st.render_cache p = none →
    alookup st.temp_cache p = some DiskFile.bad →
    get_rendered_image st p = (none, st) ∧
    ∀ (scale : ℚ) (render : String → ℚ → Option String),
      display_image st p scale render = (truthyOpt (render p scale), st)) ∧
  (alookup st.render_cache p = none → alookup st.temp_cache p = none →
    get_rendered_image st p = (none, st) ∧
    ∀ (scale : ℚ) (render : String → ℚ → Option String),
      display_image st p scale render = (truthyOpt (render p scale), st))

/-- Claim C5: resolution order and fallback of `get_rendered_image` and
`display_image`. -/
theorem c5_resolution (st : FBState) (p : String) : c5Spec st p := by
  unfold c5Spec
  refine ⟨?_, ?_, ?_, ?_⟩
  · intro t ht
    unfold get_rendered_image
    rw [ht]
  · intro d hd hm hdk
    have hload : load_from_temp st.temp_cache p = some d := by
      unfold load_from_temp
      rw [hdk]
    refine ⟨?_, ?_, is_in_memory_range_iff st.image_files st.current_index p⟩
    · unfold get_rendered_image
      rw [hm, hload]
      dsimp only
      rw [if_neg hd]
    · unfold get_rendered_image
      rw [hm, hload]
      dsimp only
      rw [if_neg hd]
      split
      · rfl
      · rfl
  · intro hm hdk
    have hload : load_from_temp st.temp_cache p = none := by
      unfold load_from_temp
      rw [hdk]
    have hg : get_rendered_image st p = (none, st) := by
      unfold get_rendered_image
      rw [hm, hload]
    refine ⟨hg, fun scale render => ?_⟩
    unfold display_image
    rw [hg]
    rfl
  · intro hm hdk
    have hload : load_from_temp st.temp_cache p = none := by
      unfold load_from_temp
      rw [hdk]
    have hg : get_rendered_image st p = (none, st) := by
      unfold get_rendered_image
      rw [hm, hload]
    refine ⟨hg, fun scale render => ?_⟩
    unfold display_image
    rw [hg]
    rfl

/-- Witness for C5 at a concrete state and path. -/
theorem c5_witness : c5Spec stC2 "b.jpg" := c5_resolution stC2 "b.jpg"

/-! ### Claim C6 -/

/-- Concrete state whose memory cache already holds stale text for the
entry that is about to fail, with an empty disk cache. -/
def stC6 : FBState :=
  ⟨["a.jpg", "b.jpg", "c.jpg"], 0, [("b.jpg", "old")], [], true, 0⟩

/-- Renderer that fails for b.jpg and succeeds elsewhere. -/
def rendC6 : String → ℚ → Option String :=
  fun p _ => if p = "b.jpg" then none else some "ART"

/-- Claim C6, counterexample: in a window with two non-cursor entries the
renderer fails for b.jpg; the pass completes and caches c.jpg, and the
pass adds b.jpg to neither cache, but b.jpg is still present in
MemoryCache afterwards — its pre-existing stale binding survives the
cleanup because index 1 is within distance 1 of the cursor — refuting the
clause that the failed entry is present in neither cache. -/
theorem c6_counterexample :
    rendC6 "b.jpg" chafa_default_scale = none ∧
    ((preloadWindow stC6).filter (fun i => !decide (i = (0 : Int)))).length
      = 2 ∧
    alookup (render_worker stC6 rendC6 (fun _ => true) (fun _ => 0)
      0).1.temp_cache "c.jpg" = some (DiskFile.ok "ART") ∧
    alookup (render_worker stC6 rendC6 (fun _ => true) (fun _ => 0)
      0).1.render_cache "b.jpg" = some "old" := by decide

/-- Failure isolation in a sequential preload pass (claim C6, amended):
when the renderer fails for a disk-missing window entry, the pass still
visits every other window index exactly once (and each later successful
entry is still written to DiskCache), the failed entry is renderer-called
exactly once, it is not added to DiskCache (staying absent), and its
MemoryCache binding afterwards is exactly its prior binding when its index
is within distance 1 of the cursor and absent otherwise. -/
def c6Spec (st : FBState) (render : String → ℚ → Option String)
    (saveOk : String → Bool) (obs : Int → Int) (cEnd : Int) : Prop :=
  ∀ i ∈ preloadWindow st, ¬ i = st.current_index →
    alookup st.temp_cache (getAt st.image_files i) = none →
    render (getAt st.image_files i) chafa_default_scale = none →
    ((render_worker st render saveOk obs cEnd).2.map pevIdx =
      (preloadWindow st).filter (fun j => !decide (j = st.current_index))) ∧
    ((render_worker st render saveOk obs cEnd).2.map pevIdx).count i = 1 ∧
    alookup (render_worker st render saveOk obs cEnd).1.temp_cache
      (getAt st.image_files i) = none ∧
    alookup (render_worker st render saveOk obs cEnd).1.render_cache
      (getAt st.image_files i) =
      (if (i - st.current_index).natAbs ≤ 1 then
        alookup st.render_cache (getAt st.image_files i)
      else none) ∧
    (∀ j ∈ preloadWindow st, ¬ j = st.current_index →
      ∀ s : String, render (getAt st.image_files j) chafa_default_scale
        = some s →
      ¬ s = "" → alookup st.temp_cache (getAt st.image_files j) = none →
      saveOk (getAt st.image_files j) = true →
      alookup (render_worker st render saveOk obs cEnd).1.temp_cache
        (getAt st.image_files j) = some (DiskFile.ok s))

/-- Claim C6 (amended), proved for a sequential pass. -/
theorem c6_amended (st : FBState) (render : String → ℚ → Option String)
    (saveOk : String → Bool) (obs : Int → Int) (cEnd : Int)
    (hnd : st.image_files.Nodup)
    (hseq : ∀ i, obs i = st.current_index)
    (hcend : cEnd = st.current_index) :
    c6Spec st render saveOk obs cEnd := by
  unfold c6Spec
  subst hcend
  intro i hi hic hdn hr
  have hio : ¬ i = obs i := by
    rw [hseq i]
    exact hic
  have hidx : (render_worker st render saveOk obs st.current_index).2.map
      pevIdx = (preloadWindow st).filter
        (fun j => !decide (j = st.current_index)) := by
    rw [render_worker_idx]
    apply List.filter_congr
    intro j _
    rw [hseq j]
  have hbounds := (mem_preloadWindow st i).mp hi
  refine ⟨hidx, ?_, ?_, ?_, ?_⟩
  · rw [hidx]
    apply List.count_eq_one_of_mem
    · refine List.Nodup.filter _ ?_
      exact (intRange_pairwise _ _).imp (fun h => ne_of_lt h)
    · exact List.mem_filter.mpr ⟨hi, by simp [hic]⟩
  · rw [render_worker_disk_at st render saveOk obs st.current_index hnd
      i hi hio]
    unfold workerDiskOutcome
    rw [hdn]
    simp only [Option.isSome_none, Bool.false_eq_true, if_false, hr]
  · rw [render_worker_mem_at st render saveOk obs st.current_index hnd
      i hi hio]
    have hkeep := mem_keepKeys_getAt st.image_files hnd st.current_index i
      (by omega) (by omega)
    unfold workerMemOutcome
    rw [hdn]
    simp only [Option.isSome_none, Bool.false_eq_true, if_false, hr]
    by_cases hdist : (i - st.current_index).natAbs ≤ 1
    · rw [if_pos (hkeep.mpr hdist), if_pos hdist]
    · rw [if_neg (fun hmm => hdist (hkeep.mp hmm)), if_neg hdist]
  · intro j hj hjc s hrj hs hdnj hsvj
    have hjo : ¬ j = obs j := by
      rw [hseq j]
      exact hjc
    rw [render_worker_disk_at st render saveOk obs st.current_index hnd
      j hj hjo]
    unfold workerDiskOutcome
    rw [hdnj]
    simp only [Option.isSome_none, Bool.false_eq_true, if_false, hrj,
      if_neg hs, if_pos hsvj]

/-- Witness for the amended C6 at the concrete state stC6 with the
renderer rendC6 failing for b.jpg. -/
theorem c6_witness : c6Spec stC6 rendC6 (fun _ => true) (fun _ => 0) 0 :=
  c6_amended stC6 rendC6 (fun _ => true) (fun _ => 0) 0 (by decide)
    (fun i => rfl) rfl

/-! ### Deletion-path lemmas -/

theorem erase_getAt (l : List String) (hnd : l.Nodup) (i : Int) (h0 : 0 ≤ i)
    (h1 : i < (l.length : Int)) : l.erase (getAt l i) = l.eraseIdx i.toNat := by
  induction l generalizing i with
  | nil =>
    simp at h1
    omega
  | cons a t ih =>
    rcases List.nodup_cons.mp hnd with ⟨hmem, hndt⟩
    by_cases hz : i ≤ 0
    · have hi0 : i = 0 := by omega
      subst hi0
      simp [getAt]
    · rw [getAt_cons_pos a t i (by omega)]
      have hmem2 : getAt t (i - 1) ∈ t :=
        getAt_mem t (i - 1) (by omega) (by simp at h1; omega)
      have hne : ¬ (a == getAt t (i - 1)) := by
        simp only [beq_iff_eq]
        exact fun he => hmem (he ▸ hmem2)
      rw [List.erase_cons_tail hne]
      have hiT : i.toNat = (i - 1).toNat + 1 := by omega
      rw [hiT, List.eraseIdx_cons_succ,
        ih hndt (i - 1) (by omega) (by simp at h1; omega)]

theorem get_current_image_eq (s : FBState) (h0 : 0 ≤ s.current_index)
    (h1 : s.current_index < (s.image_files.length : Int)) :
    get_current_image s = some (getAt s.image_files s.current_index) := by
  unfold get_current_image
  rw [if_pos ⟨h0, h1⟩]

theorem get_current_image_mem (s : FBState) (x : String)
    (h : get_current_image s = some x) : x ∈ s.image_files := by
  unfold get_current_image at h
  split at h
  · rename_i hb
    rw [Option.some.injEq] at h
    subst h
    exact getAt_mem s.image_files s.current_index hb.1 hb.2
  · exact Option.noConfusion h

theorem get_rendered_image_temp (s : FBState) (x : String) :
    (get_rendered_image s x).2.temp_cache = s.temp_cache := by
  unfold get_rendered_image
  repeat' split
  all_goals rfl

theorem get_rendered_image_files (s : FBState) (x : String) :
    (get_rendered_image s x).2.image_files = s.image_files := by
  unfold get_rendered_image
  repeat' split
  all_goals rfl

theorem get_rendered_image_index (s : FBState) (x : String) :
    (get_rendered_image s x).2.current_index = s.current_index := by
  unfold get_rendered_image
  repeat' split
  all_goals rfl

theorem get_rendered_image_frame (s : FBState) (x q : String) (hq : ¬ x = q) :
    alookup (get_rendered_image s x).2.render_cache q =
      alookup s.render_cache q := by
  unfold get_rendered_image
  repeat' split
  all_goals
    first
    | rfl
    | exact alookup_ainsert_ne _ _ _ _ (fun he => hq he.symm)

theorem get_rendered_image_keeps (s : FBState) (x q t : String)
    (ht : alookup s.render_cache q = some t) :
    alookup (get_rendered_image s x).2.render_cache q = some t := by
  by_cases hq : x = q
  · subst hq
    unfold get_rendered_image
    rw [ht]
    exact ht
  · rw [get_rendered_image_frame s x q hq]
    exact ht

theorem display_image_state (s : FBState) (x : String) (scale : ℚ)
    (render : String → ℚ → Option String) :
    (display_image s x scale render).2 = (get_rendered_image s x).2 := by
  unfold display_image
  dsimp only
  split
  · rfl
  · rfl

theorem refresh_display_model_temp (s : FBState) (scale : ℚ)
    (render : String → ℚ → Option String) :
    (refresh_display_model s scale render).temp_cache = s.temp_cache := by
  unfold refresh_display_model
  split
  · rw [display_image_state]
    exact get_rendered_image_temp _ _
  · rfl

theorem refresh_display_model_files (s : FBState) (scale : ℚ)
    (render : String → ℚ → Option String) :
    (refresh_display_model s scale render).image_files = s.image_files := by
  unfold refresh_display_model
  split
  · rw [display_image_state]
    exact get_rendered_image_files _ _
  · rfl

theorem refresh_display_model_index (s : FBState) (scale : ℚ)
    (render : String → ℚ → Option String) :
    (refresh_display_model s scale render).current_index =
      s.current_index := by
  unfold refresh_display_model
  split
  · rw [display_image_state]
    exact get_rendered_image_index _ _
  · rfl

theorem refresh_display_model_keeps (s : FBState) (scale : ℚ)
    (render : String → ℚ → Option String) (q t : String)
    (ht : alookup s.render_cache q = some t) :
    alookup (refresh_display_model s scale render).render_cache q =
      some t := by
  unfold refresh_display_model
  split
  · rw [display_image_state]
    exact get_rendered_image_keeps _ _ _ _ ht
  · exact ht

theorem refresh_display_model_frame (s : FBState) (scale : ℚ)
    (render : String → ℚ → Option String) (q : String)
    (hq : ∀ x, get_current_image s = some x → ¬ x = q) :
    alookup (refresh_display_model s scale render).render_cache q =
      alookup s.render_cache q := by
  unfold refresh_display_model
  split
  · rename_i x heq
    rw [display_image_state]
    exact get_rendered_image_frame s x q (hq x heq)
  · rfl

/-- Full characterization of a confirmed, successful single-entry deletion:
catalog loses exactly the cursor entry, the cursor is clamped to 0 exactly
when it pointed at the last entry, the temporary cache is untouched,
every existing memory-cache binding survives, and the deleted path keeps
exactly its previous memory-cache binding. -/
theorem delete_current_success (st : FBState) (scale : ℚ)
    (render : String → ℚ → Option String) (hnd : st.image_files.Nodup)
    (h0 : 0 ≤ st.current_index)
    (h1 : st.current_index < (st.image_files.length : Int)) :
    (delete_current_image st true true scale render).image_files =
      st.image_files.eraseIdx st.current_index.toNat ∧
    (delete_current_image st true true scale render).current_index =
      (if (st.image_files.length : Int) ≤ st.current_index + 1 then 0
       else st.current_index) ∧
    (∀ q t, alookup st.render_cache q = some t →
      alookup (delete_current_image st true true scale render).render_cache q
        = some t) ∧
    (delete_current_image st true true scale render).temp_cache =
      st.temp_cache ∧
    alookup (delete_current_image st true true scale render).render_cache
        (getAt st.image_files st.current_index) =
      alookup st.render_cache (getAt st.image_files st.current_index) := by
  have hcur := get_current_image_eq st h0 h1
  have hmem : getAt st.image_files st.current_index ∈ st.image_files :=
    getAt_mem st.image_files st.current_index h0 h1
  have herase : st.image_files.erase (getAt st.image_files st.current_index)
      = st.image_files.eraseIdx st.current_index.toNat :=
    erase_getAt st.image_files hnd st.current_index h0 h1
  have hlenE : (st.image_files.erase
      (getAt st.image_files st.current_index)).length =
      st.image_files.length - 1 := List.length_erase_of_mem hmem
  have hTrue : ¬ (!true) = true := by decide
  have hpnot : getAt st.image_files st.current_index ∉
      st.image_files.erase (getAt st.image_files st.current_index) :=
    hnd.not_mem_erase
  unfold delete_current_image
  rw [hcur]
  dsimp only
  rw [if_neg hTrue, if_neg hTrue]
  by_cases hfe : (st.image_files.erase
      (getAt st.image_files st.current_index)).isEmpty
  · rw [if_pos hfe]
    have hfe2 : st.image_files.erase (getAt st.image_files st.current_index)
        = [] := List.isEmpty_iff.mp hfe
    have hl1 : st.image_files.length = 1 := by
      rw [hfe2] at hlenE
      simp at hlenE
      omega
    refine ⟨herase, ?_, fun q t ht => ht, rfl, rfl⟩
    rw [if_pos (by omega)]
    show st.current_index = 0
    omega
  · rw [if_neg hfe]
    have hlen1 : 1 ≤ st.image_files.length := by omega
    have hcast : ((st.image_files.erase
        (getAt st.image_files st.current_index)).length : Int) =
        (st.image_files.length : Int) - 1 := by
      rw [hlenE]
      omega
    have hframe : ∀ (s2 : FBState),
        s2.image_files = st.image_files.erase
          (getAt st.image_files st.current_index) →
        ∀ x, get_current_image s2 = some x →
        ¬ x = getAt st.image_files st.current_index := by
      intro s2 hs2 x hx he
      have hxmem := get_current_image_mem s2 x hx
      rw [hs2] at hxmem
      rw [he] at hxmem
      exact hpnot hxmem
    by_cases hclamp : ((st.image_files.erase
        (getAt st.image_files st.current_index)).length : Int) ≤
        st.current_index
    · rw [if_pos hclamp]
      refine ⟨?_, ?_, ?_, ?_, ?_⟩
      · rw [refresh_display_model_files]
        exact herase
      · rw [refresh_display_model_index]
        show (0 : Int) = _
        rw [if_pos (by omega)]
      · intro q t ht
        exact refresh_display_model_keeps _ _ _ _ _ ht
      · rw [refresh_display_model_temp]
      · exact refresh_display_model_frame _ _ _ _ (hframe _ rfl)
    · rw [if_neg hclamp]
      refine ⟨?_, ?_, ?_, ?_, ?_⟩
      · rw [refresh_display_model_files]
        exact herase
      · rw [refresh_display_model_index]
        show st.current_index = _
        rw [if_neg (by omega)]
      · intro q t ht
        exact refresh_display_model_keeps _ _ _ _ _ ht
      · rw [refresh_display_model_temp]
      · exact refresh_display_model_frame _ _ _ _ (hframe _ rfl)

/-! ### Claim C8 -/

/-- Claim C8: for a non-empty duplicate-free catalog with a valid cursor,
a confirmed successful deletion removes exactly the entry at the cursor
from the catalog; the cursor is clamped to 0 exactly when it then equals
the new catalog length (it pointed at the last entry) and is unchanged
otherwise; and no existing cache entry — in particular none belonging to
any other catalog entry — is removed or modified: every prior
memory-cache binding survives verbatim and the disk cache is untouched. -/
theorem c8_delete (st : FBState) (scale : ℚ)
    (render : String → ℚ → Option String) (hnd : st.image_files.Nodup)
    (h0 : 0 ≤ st.current_index)
    (h1 : st.current_index < (st.image_files.length : Int)) :
    (delete_current_image st true true scale render).image_files =
      st.image_files.eraseIdx st.current_index.toNat ∧
    (delete_current_image st true true scale render).current_index =
      (if (st.image_files.length : Int) ≤ st.current_index + 1 then 0
       else st.current_index) ∧
    (∀ q t, alookup st.render_cache q = some t →
      alookup (delete_current_image st true true scale render).render_cache q
        = some t) ∧
    (delete_current_image st true true scale render).temp_cache =
      st.temp_cache := by
  rcases delete_current_success st scale render hnd h0 h1 with
    ⟨hf, hc, hk, ht, _⟩
  exact ⟨hf, hc, hk, ht⟩

/-- Concrete state for the C8 and C9 witnesses: three entries, cursor on
the middle one, both caches holding entries for the current and another
entry. -/
def stC8 : FBState :=
  ⟨["a.jpg", "b.jpg", "c.jpg"], 1, [("b.jpg", "B"), ("a.jpg", "A")],
    [("b.jpg", DiskFile.ok "Bd"), ("c.jpg", DiskFile.ok "Cd")], true, 0⟩

/-- Witness for C8 at the concrete state stC8. -/
theorem c8_witness :
    (delete_current_image stC8 true true DEFAULT_SCALE rendOk).image_files =
      stC8.image_files.eraseIdx stC8.current_index.toNat ∧
    (delete_current_image stC8 true true DEFAULT_SCALE rendOk).current_index =
      (if (stC8.image_files.length : Int) ≤ stC8.current_index + 1 then 0
       else stC8.current_index) ∧
    (∀ q t, alookup stC8.render_cache q = some t →
      alookup (delete_current_image stC8 true true DEFAULT_SCALE
        rendOk).render_cache q = some t) ∧
    (delete_current_image stC8 true true DEFAULT_SCALE rendOk).temp_cache =
      stC8.temp_cache :=
  c8_delete stC8 DEFAULT_SCALE rendOk (by decide) (by decide) (by decide)

/-! ### Claim C9 -/

/-- Claim C9: the deletion does not remove the deleted entry's own cached
render from either cache — its disk-cache file survives the deletion
untouched, and its memory-cache binding is exactly what it was before —
so a subsequent `get_rendered_image` of the same absolute path is served
the stale cached text, from memory if it was there, else from the
still-readable non-empty disk-cache file. -/
theorem c9_stale_cache_after_delete (st : FBState) (scale : ℚ)
    (render : String → ℚ → Option String) (hnd : st.image_files.Nodup)
    (h0 : 0 ≤ st.current_index)
    (h1 : st.current_index < (st.image_files.length : Int)) :
    (delete_current_image st true true scale render).temp_cache =
      st.temp_cache ∧
    alookup (delete_current_image st true true scale render).render_cache
        (getAt st.image_files st.current_index) =
      alookup st.render_cache (getAt st.image_files st.current_index) ∧
    (∀ t, alookup st.render_cache (getAt st.image_files st.current_index)
        = some t →
      (get_rendered_image (delete_current_image st true true scale render)
        (getAt st.image_files st.current_index)).1 = some t) ∧
    (∀ t, ¬ t = "" →
      alookup st.render_cache (getAt st.image_files st.current_index)
        = none →
      alookup st.temp_cache (getAt st.image_files st.current_index)
        = some (DiskFile.ok t) →
      (get_rendered_image (delete_current_image st true true scale render)
        (getAt st.image_files st.current_index)).1 = some t) := by
  rcases delete_current_success st scale render hnd h0 h1 with
    ⟨hf, hc, hk, ht, hp⟩
  refine ⟨ht, hp, ?_, ?_⟩
  · intro t hmemt
    unfold get_rendered_image
    rw [hp, hmemt]
  · intro t hne hmemn hdisk
    unfold get_rendered_image
    rw [hp, hmemn]
    have hload : load_from_temp
        (delete_current_image st true true scale render).temp_cache
        (getAt st.image_files st.current_index) = some t := by
      unfold load_from_temp
      rw [ht, hdisk]
    rw [hload]
    dsimp only
    rw [if_neg hne]

/-- Witness for C9 at the concrete state stC8 (the deleted entry b.jpg is
in both caches beforehand). -/
theorem c9_witness :
    (delete_current_image stC8 true true DEFAULT_SCALE rendOk).temp_cache =
      stC8.temp_cache ∧
    alookup (delete_current_image stC8 true true DEFAULT_SCALE
        rendOk).render_cache
        (getAt stC8.image_files stC8.current_index) =
      alookup stC8.render_cache (getAt stC8.image_files stC8.current_index) ∧
    (∀ t, alookup stC8.render_cache
        (getAt stC8.image_files stC8.current_index) = some t →
      (get_rendered_image
        (delete_current_image stC8 true true DEFAULT_SCALE rendOk)
        (getAt stC8.image_files stC8.current_index)).1 = some t) ∧
    (∀ t, ¬ t = "" →
      alookup stC8.render_cache
        (getAt stC8.image_files stC8.current_index) = none →
      alookup stC8.temp_cache (getAt stC8.image_files stC8.current_index)
        = some (DiskFile.ok t) →
      (get_rendered_image
        (delete_current_image stC8 true true DEFAULT_SCALE rendOk)
        (getAt stC8.image_files stC8.current_index)).1 = some t) :=
  c9_stale_cache_after_delete stC8 DEFAULT_SCALE rendOk (by decide)
    (by decide) (by decide)

/-! ### Claim C10 -/

/-- Empty rendered text is treated as absence (claim C10): a renderer
result of the empty string during a preload pass writes neither cache — the
disk binding stays absent and the memory binding is exactly the prior one
filtered by the cleanup; the foreground fallback likewise reports failure
and leaves the state unchanged when the renderer returns the empty string;
and a disk-cache file holding empty content is reported as a miss by
`get_rendered_image`. -/
def c10Spec (st : FBState) (render : String → ℚ → Option String)
    (saveOk : String → Bool) (obs : Int → Int) (cEnd : Int) (p : String)
    (scale : ℚ) : Prop :=
  (∀ i ∈ preloadWindow st, ¬ i = st.current_index →
    alookup st.temp_cache (getAt st.image_files i) = none →
    render (getAt st.image_files i) chafa_default_scale = some "" →
    alookup (render_worker st render saveOk obs cEnd).1.temp_cache
      (getAt st.image_files i) = none ∧
    alookup (render_worker st render saveOk obs cEnd).1.render_cache
      (getAt st.image_files i) =
      (if (i - st.current_index).natAbs ≤ 1 then
        alookup st.render_cache (getAt st.image_files i)
      else none)) ∧
  (alookup st.render_cache p = none → alookup st.temp_cache p = none →
    render p scale = some "" →
    display_image st p scale render = (false, st)) ∧
  (alookup st.render_cache p = none →
    alookup st.temp_cache p = some (DiskFile.ok "") →
    get_rendered_image st p = (none, st))

/-- Claim C10, proved for a sequential pass. -/
theorem c10_empty_as_absence (st : FBState)
    (render : String → ℚ → Option String) (saveOk : String → Bool)
    (obs : Int → Int) (cEnd : Int) (p : String) (scale : ℚ)
    (hnd : st.image_files.Nodup)
    (hseq : ∀ i, obs i = st.current_index)
    (hcend : cEnd = st.current_index) :
    c10Spec st render saveOk obs cEnd p scale := by
  unfold c10Spec
  subst hcend
  refine ⟨?_, ?_, ?_⟩
  · intro i hi hic hdn hr
    have hio : ¬ i = obs i := by
      rw [hseq i]
      exact hic
    have hbounds := (mem_preloadWindow st i).mp hi
    constructor
    · rw [render_worker_disk_at st render saveOk obs st.current_index hnd
        i hi hio]
      unfold workerDiskOutcome
      rw [hdn]
      simp only [Option.isSome_none, Bool.false_eq_true, if_false, hr]
      simp
    · rw [render_worker_mem_at st render saveOk obs st.current_index hnd
        i hi hio]
      have hkeep := mem_keepKeys_getAt st.image_files hnd st.current_index i
        (by omega) (by omega)
      unfold workerMemOutcome
      rw [hdn]
      simp only [Option.isSome_none, Bool.false_eq_true, if_false, hr]
      by_cases hdist : (i - st.current_index).natAbs ≤ 1
      · rw [if_pos (hkeep.mpr hdist)]
        rw [if_pos hdist]
        simp
      · rw [if_neg (fun hmm => hdist (hkeep.mp hmm)), if_neg hdist]
  · intro hm hdk hr
    have hload : load_from_temp st.temp_cache p = none := by
      unfold load_from_temp
      rw [hdk]
    have hg : get_rendered_image st p = (none, st) := by
      unfold get_rendered_image
      rw [hm, hload]
    unfold display_image
    rw [hg, hr]
    rfl
  · intro hm hdk
    have hload : load_from_temp st.temp_cache p = some "" := by
      unfold load_from_temp
      rw [hdk]
    unfold get_rendered_image
    rw [hm, hload]
    rfl

/-- Renderer returning empty text everywhere, for the C10 witness. -/
def rendEmpty : String → ℚ → Option String := fun _ _ => some ""

/-- Concrete state for the C10 witness: one disk file with empty content,
one disk-missing entry in the window for which the renderer returns empty
text. -/
def stC10 : FBState :=
  ⟨["a.jpg", "b.jpg", "c.jpg"], 0, [], [("c.jpg", DiskFile.ok "")], true, 0⟩

/-- Witness for C10 at the concrete state stC10. -/
theorem c10_witness :
    c10Spec stC10 rendEmpty (fun _ => true) (fun _ => 0) 0 "c.jpg"
      DEFAULT_SCALE :=
  c10_empty_as_absence stC10 rendEmpty (fun _ => true) (fun _ => 0) 0
    "c.jpg" DEFAULT_SCALE (by decide) (fun i => rfl) rfl

end PixelTerm
